import Mathlib

/-!
The change detection and brightness bucketing of backlight-notify

A shallow embedding of `src/main.c` (acpi-backlight-notify).

* Machine integers are mathematical integers; the places where C narrows a value
  (`gint64` to `gint`, the 32-bit product in `options_init`) wrap modulo `2 ^ 32`.
* `float` and `double` values are exact rationals; every arithmetic operation is
  followed by IEEE-754 round-to-nearest-even to 24 resp. 53 significant bits
  (`FLT_EVAL_METHOD = 0`).  For 64-bit integer inputs no operation of the
  callback leaves the normal range of either format, so the exponent is left
  unbounded.  A non-finite value (infinity or NaN, produced only by a division
  by zero) is `none`.
* A conversion of a non-finite or out-of-range floating value to an integer type
  is undefined in ISO C; it yields an unspecified value of the target type that
  is a parameter of the model (`conv_ub`).
* The file system and glib's `g_ascii_strtoll` are parameters (`Env`); the effects
  of the callback (file reads, log messages, notifications shown) are returned as
  a trace.  The log handlers installed by `options_init` do not act on any of this
  and are left out.
-/

namespace BacklightNotify

/-! ## Machine integers -/

/-- Wrap an integer into the two's-complement range of a signed `w`-bit type. -/
def wrapSigned (w : ℕ) (x : ℤ) : ℤ :=
  (x + 2 ^ (w - 1)) % 2 ^ w - 2 ^ (w - 1)

/-- Conversion to `gint` (32-bit `int`). -/
def toGint (x : ℤ) : ℤ := wrapSigned 32 x

/-! ## Floating point -/

/-- Nearest integer, a tie going to the even neighbour. -/
def rne (z : ℚ) : ℤ :=
  if z - ⌊z⌋ < 1 / 2 then ⌊z⌋
  else if 1 / 2 < z - ⌊z⌋ then ⌊z⌋ + 1
  else if ⌊z⌋ % 2 = 0 then ⌊z⌋ else ⌊z⌋ + 1

/-- Exponent of the unit in the last place of `x` for a `p`-bit significand. -/
def ulpExp (p : ℕ) (x : ℚ) : ℤ := Int.log 2 |x| - ((p : ℤ) - 1)

/-- Round `x` to the nearest number with a `p`-bit significand, ties to even. -/
def fround (p : ℕ) (x : ℚ) : ℚ :=
  if x = 0 then 0 else (rne (x / 2 ^ ulpExp p x) : ℚ) * 2 ^ ulpExp p x

/-- Rounding to `float` (IEEE-754 binary32, `FLT_MANT_DIG = 24`). -/
def f32 (x : ℚ) : ℚ := fround 24 x

/-- Rounding to `double` (IEEE-754 binary64, `DBL_MANT_DIG = 53`). -/
def f64 (x : ℚ) : ℚ := fround 53 x

/-- Division of two finite `float`s: non-finite (`none`) when the divisor is zero. -/
def fdiv32 (a b : ℚ) : Option ℚ :=
  if b = 0 then none else some (f32 (a / b))

/-- Truncation toward zero. -/
def truncQ (x : ℚ) : ℤ := if 0 ≤ x then ⌊x⌋ else ⌈x⌉

/-- Conversion of a floating value to a signed `w`-bit integer type: the value
truncated toward zero when that fits, the unspecified value `ub` (brought into the
type) otherwise. -/
def floatToSigned (w : ℕ) (ub : ℤ) (x : Option ℚ) : ℤ :=
  match x with
  | some v =>
    if -(2 : ℚ) ^ (w - 1) - 1 < v ∧ v < (2 : ℚ) ^ (w - 1) then truncQ v
    else wrapSigned w ub
  | none => wrapSigned w ub

/-- The number `x` has a significand of at most `p` bits. -/
def Representable (p : ℕ) (x : ℚ) : Prop :=
  ∃ m t : ℤ, |m| < 2 ^ p ∧ x = (m : ℚ) * 2 ^ t

/-! ## Data model -/

/-- A `GFile`, identified by its path. -/
abbrev GFile := String

/-- The `NotifyUrgency` enumeration of libnotify. -/
inductive NotifyUrgency where
  | LOW
  | NORMAL
  | CRITICAL
  deriving DecidableEq, Repr

/-- The `GFileMonitorEvent` enumeration of gio. -/
inductive GFileMonitorEvent where
  | CHANGED
  | CHANGES_DONE_HINT
  | DELETED
  | CREATED
  | ATTRIBUTE_CHANGED
  | PRE_UNMOUNT
  | UNMOUNTED
  | MOVED
  | RENAMED
  | MOVED_IN
  | MOVED_OUT
  deriving DecidableEq, Repr

/-- State of the `NotifyNotification` handle as far as the program sets it;
`none` is a `NULL` string resp. an absent hint. -/
structure NotifyNotification where
  summary : Option String
  body : Option String
  icon : Option String
  timeout : ℤ
  urgency : Option NotifyUrgency
  hint_value : Option ℤ
  deriving DecidableEq, Repr

/-- The `Context` structure. -/
structure Context where
  notification : NotifyNotification
  max_brightness : GFile
  actual_brightness : GFile
  backlight : ℤ
  deriving DecidableEq, Repr

/-- The global `config`. -/
structure Config where
  debug : Bool
  timeout : ℤ
  backlight : Option String
  deriving DecidableEq, Repr

/-- What the callback does to the outside world. -/
inductive Effect where
  | read (file : GFile)
  | debug (msg : String)
  | warning (msg : String)
  | display (n : NotifyNotification)
  deriving DecidableEq, Repr

/-- The environment of the program: file contents (or the error message of a
failed read), glib's integer parser, and the value an undefined floating-point to
integer conversion produces. -/
structure Env where
  g_file_get_contents : GFile → Except String String
  g_ascii_strtoll : String → ℤ
  conv_ub : ℤ

/-! ## The program -/

/-- The constant `NOTIFY_EXPIRES_DEFAULT` of libnotify. -/
def NOTIFY_EXPIRES_DEFAULT : ℤ := -1

/-- The macro `SYS_CLASS_PATH`. -/
def SYS_CLASS_PATH : String := "/sys/class/backlight/"

/-- Initial value of the global `config`. -/
def config_default : Config :=
  { debug := false, timeout := NOTIFY_EXPIRES_DEFAULT, backlight := none }

/-- The call `notify_notification_new(NULL, NULL, NULL)`: a handle with nothing set. -/
def notify_notification_new : NotifyNotification :=
  { summary := none, body := none, icon := none, timeout := NOTIFY_EXPIRES_DEFAULT,
    urgency := none, hint_value := none }

/-- The function `context_init`. -/
def context_init (backlight : String) : Context :=
  { notification := notify_notification_new
    max_brightness := SYS_CLASS_PATH ++ backlight ++ "/max_brightness"
    actual_brightness := SYS_CLASS_PATH ++ backlight ++ "/actual_brightness"
    backlight := -1 }

/-- The function `notify_icon`. -/
def notify_icon (brightness : ℤ) : String :=
  if brightness ≥ 66 then "notification-display-brightness-high"
  else if brightness ≥ 33 then "notification-display-brightness-medium"
  else "notification-display-brightness-low"

/-- The function `notify_message`: update the handle, then show it. -/
def notify_message (notification : NotifyNotification) (summary body : Option String)
    (urgency : NotifyUrgency) (icon : Option String) (timeout brightness : ℤ) :
    NotifyNotification × List Effect :=
  let n1 := { notification with summary := summary, body := body, icon := icon }
  let n2 := { n1 with timeout := timeout }
  let n3 := { n2 with urgency := some urgency }
  let n4 := if brightness ≥ 0 then { n3 with hint_value := some brightness }
            else { n3 with hint_value := none }
  (n4, [Effect.display n4])

/-- The function `read_int`: the parsed content of the file, or the error of the failed read. -/
def read_int (env : Env) (file : GFile) : Except String ℤ :=
  match env.g_file_get_contents file with
  | .ok content => .ok (env.g_ascii_strtoll content)
  | .error e => .error e

/-- The `float perc` of `backlight_callback`:
`(actual / (float)max) * 100.0f`, in single precision. -/
def percentage (actual max : ℤ) : Option ℚ :=
  (fdiv32 (f32 actual) (f32 max)).map fun q => f32 (q * 100)

/-- The `gint64 nearest_5` of `backlight_callback`:
`(int)(perc / 5.0 + 0.5) * 5.0`, the sum in double precision, the product of the
`int` and `5.0` in double precision converted back to `gint64`. -/
def nearest_5 (ub : ℤ) (actual max : ℤ) : ℤ :=
  let n := floatToSigned 32 ub ((percentage actual max).map fun perc => f64 (f64 (perc / 5) + 1 / 2))
  floatToSigned 64 ub (some (f64 (f64 n * 5)))

/-- The function `backlight_callback`: the context after the event and the effects performed. -/
def backlight_callback (env : Env) (config : Config) (context : Context) (file : GFile)
    (evtype : GFileMonitorEvent) : Context × List Effect :=
  match evtype with
  | .CHANGED =>
    match read_int env file with
    | .error e =>
      (context, [Effect.read file, Effect.warning ("Cannot read actual_brightness: " ++ e)])
    | .ok actual =>
      if context.backlight ≠ actual then
        match read_int env context.max_brightness with
        | .error e =>
          (context,
            [Effect.read file, Effect.debug "actual_brightness is changed",
             Effect.read context.max_brightness,
             Effect.warning ("Cannot read max_brightness: " ++ e)])
        | .ok max =>
          let nearest := nearest_5 env.conv_ub actual max
          let r := notify_message context.notification (some "Backlight") none
            NotifyUrgency.LOW (some (notify_icon (toGint nearest))) config.timeout
            (toGint nearest)
          ({ context with notification := r.1, backlight := actual },
            [Effect.read file, Effect.debug "actual_brightness is changed",
             Effect.read context.max_brightness] ++ r.2)
      else (context, [Effect.read file])
  | _ => (context, [])

/-- The function `options_init` after `g_option_context_parse` has filled `config` from the
command line (`parsed`, or the parse error): `none` is the return value `FALSE`.
The product is computed in `gint`. -/
def options_init (parsed : Except String Config) : Option Config :=
  match parsed with
  | .error _ => none
  | .ok config =>
    if config.backlight = none then none
    else if config.timeout > 0 then some { config with timeout := toGint (config.timeout * 1000) }
    else some config

/-! ## Reading the trace -/

/-- The notifications shown, in order. -/
def shown : List Effect → List NotifyNotification
  | [] => []
  | Effect.display n :: es => n :: shown es
  | _ :: es => shown es

/-- The files read, in order. -/
def reads : List Effect → List GFile
  | [] => []
  | Effect.read f :: es => f :: reads es
  | _ :: es => reads es

/-! ## The specification's formula -/

/-- Bucket formula of the specification, in exact arithmetic:
`floor(raw/max*100/5 + 0.5) * 5`. -/
def exact_bucket (raw max : ℤ) : ℤ :=
  ⌊(raw : ℚ) / max * 100 / 5 + 1 / 2⌋ * 5

/-! ## A concrete device for worked examples -/

/-- A file system holding the two brightness files of the device `acpi_video0`,
with the readings `actual` and `max`; an undefined conversion yields `INT_MIN`. -/
def example_env (actual max : ℤ) : Env :=
  { g_file_get_contents := fun f =>
      if f = "/sys/class/backlight/acpi_video0/max_brightness" then .ok "max"
      else if f = "/sys/class/backlight/acpi_video0/actual_brightness" then .ok "actual"
      else .error "No such file or directory"
    g_ascii_strtoll := fun s => if s = "max" then max else actual
    conv_ub := -2147483648 }

/-- The device `acpi_video0` while its `max_brightness` file cannot be read. -/
def example_env_no_max (actual : ℤ) : Env :=
  { g_file_get_contents := fun f =>
      if f = "/sys/class/backlight/acpi_video0/actual_brightness" then .ok "actual"
      else .error "No such file or directory"
    g_ascii_strtoll := fun _ => actual
    conv_ub := -2147483648 }

/-- A file system on which every read fails. -/
def example_env_unreadable : Env :=
  { g_file_get_contents := fun _ => .error "Input/output error"
    g_ascii_strtoll := fun _ => 0
    conv_ub := -2147483648 }

/-- The context of the device `acpi_video0` with `stored` as last reported value. -/
def example_context (stored : ℤ) : Context :=
  { context_init "acpi_video0" with backlight := stored }

/-- The watched file of the device `acpi_video0`. -/
def example_file : GFile := "/sys/class/backlight/acpi_video0/actual_brightness"

/-! ## Rounding to the nearest integer -/

theorem rne_floor_or (z : ℚ) : rne z = ⌊z⌋ ∨ rne z = ⌊z⌋ + 1 := by
  unfold rne
  split_ifs <;> simp

theorem rne_intCast (k : ℤ) : rne (k : ℚ) = k := by
  unfold rne
  simp

theorem floor_le_rne (z : ℚ) : ⌊z⌋ ≤ rne z := by
  rcases rne_floor_or z with h | h <;> omega

theorem int_le_rne {z : ℚ} {k : ℤ} (h : (k : ℚ) ≤ z) : k ≤ rne z :=
  le_trans (Int.le_floor.mpr h) (floor_le_rne z)

theorem rne_le_int {z : ℚ} {k : ℤ} (h : z ≤ (k : ℚ)) : rne z ≤ k := by
  have hf1 : (⌊z⌋ : ℚ) ≤ z := Int.floor_le z
  have hfk : ⌊z⌋ ≤ k := by exact_mod_cast le_trans hf1 h
  rcases eq_or_lt_of_le hfk with heq | hlt
  · have hz : z = (k : ℚ) := le_antisymm h (by rw [← heq]; exact hf1)
    rw [hz, rne_intCast]
  · rcases rne_floor_or z with h' | h' <;> omega

theorem rne_sub_le (z : ℚ) : |(rne z : ℚ) - z| ≤ 1 / 2 := by
  have hf1 : (⌊z⌋ : ℚ) ≤ z := Int.floor_le z
  have hf2 : z < ⌊z⌋ + 1 := Int.lt_floor_add_one z
  unfold rne
  rw [abs_le]
  split_ifs with h1 h2 h3
  · constructor <;> linarith
  · push_cast; constructor <;> linarith
  · constructor <;> linarith
  · push_cast; constructor <;> linarith

theorem rne_mono {x y : ℚ} (h : x ≤ y) : rne x ≤ rne y := by
  have hxy : ⌊x⌋ ≤ ⌊y⌋ := Int.floor_mono h
  rcases eq_or_lt_of_le hxy with heq | hlt
  · unfold rne
    rw [heq]
    split_ifs <;> first | omega | (exfalso; linarith)
  · have h1 : rne x ≤ ⌊x⌋ + 1 := by rcases rne_floor_or x with h' | h' <;> omega
    have h2 := floor_le_rne y
    omega

/-! ## Rounding to `p` significant bits -/

theorem two_zpow_pos (k : ℤ) : (0 : ℚ) < 2 ^ k := zpow_pos (by norm_num) k

theorem zpow_log_le {x : ℚ} (hx : 0 < x) : (2 : ℚ) ^ Int.log 2 x ≤ x := by
  have h := Int.zpow_log_le_self (b := 2) (by norm_num) hx
  simpa using h

theorem lt_zpow_log_succ (x : ℚ) : x < (2 : ℚ) ^ (Int.log 2 x + 1) := by
  have h := Int.lt_zpow_succ_log_self (b := 2) (by norm_num) x
  simpa using h

theorem log_lt_of_lt_zpow {x : ℚ} (hx : 0 < x) {k : ℤ} (h : x < (2 : ℚ) ^ k) :
    Int.log 2 x < k := by
  have := (Int.lt_zpow_iff_log_lt (b := 2) (by norm_num) hx (x := k)).mp (by simpa using h)
  exact this

theorem le_log_of_zpow_le {x : ℚ} (hx : 0 < x) {k : ℤ} (h : (2 : ℚ) ^ k ≤ x) :
    k ≤ Int.log 2 x := by
  have := (Int.zpow_le_iff_le_log (b := 2) (by norm_num) hx (x := k)).mp (by simpa using h)
  exact this

theorem fround_zero (p : ℕ) : fround p 0 = 0 := by
  simp [fround]

theorem fround_of_pos (p : ℕ) {x : ℚ} (hx : 0 < x) :
    fround p x = (rne (x / 2 ^ (Int.log 2 x - ((p : ℤ) - 1))) : ℚ)
      * 2 ^ (Int.log 2 x - ((p : ℤ) - 1)) := by
  unfold fround ulpExp
  rw [if_neg hx.ne', abs_of_pos hx]

/-- The scaled significand of a positive number lies in `[2^(p-1), 2^p)`. -/
theorem scaled_bounds (p : ℕ) (hp : 1 ≤ p) {x : ℚ} (hx : 0 < x) :
    (((2 : ℤ) ^ (p - 1) : ℤ) : ℚ) ≤ x / 2 ^ (Int.log 2 x - ((p : ℤ) - 1)) ∧
    x / 2 ^ (Int.log 2 x - ((p : ℤ) - 1)) < (((2 : ℤ) ^ p : ℤ) : ℚ) := by
  have h1 := zpow_log_le hx
  have h2 := lt_zpow_log_succ x
  have hs := two_zpow_pos (Int.log 2 x - ((p : ℤ) - 1))
  have e1 : (((2 : ℤ) ^ (p - 1) : ℤ) : ℚ) * 2 ^ (Int.log 2 x - ((p : ℤ) - 1))
      = 2 ^ Int.log 2 x := by
    push_cast
    rw [← zpow_natCast, ← zpow_add₀ (by norm_num)]
    congr 1
    have : ((p - 1 : ℕ) : ℤ) = (p : ℤ) - 1 := by omega
    rw [this]; ring
  have e2 : (((2 : ℤ) ^ p : ℤ) : ℚ) * 2 ^ (Int.log 2 x - ((p : ℤ) - 1))
      = 2 ^ (Int.log 2 x + 1) := by
    push_cast
    rw [← zpow_natCast, ← zpow_add₀ (by norm_num)]
    congr 1
    ring
  constructor
  · rw [le_div_iff₀ hs, e1]; exact h1
  · rw [div_lt_iff₀ hs, e2]; exact h2

/-- A positive number rounds into the closure of its binade. -/
theorem fround_binade (p : ℕ) (hp : 1 ≤ p) {x : ℚ} (hx : 0 < x) :
    (2 : ℚ) ^ Int.log 2 x ≤ fround p x ∧ fround p x ≤ 2 ^ (Int.log 2 x + 1) := by
  obtain ⟨h1, h2⟩ := scaled_bounds p hp hx
  have hs := two_zpow_pos (Int.log 2 x - ((p : ℤ) - 1))
  have k1 : (2 : ℤ) ^ (p - 1) ≤ rne (x / 2 ^ (Int.log 2 x - ((p : ℤ) - 1))) := int_le_rne h1
  have k2 : rne (x / 2 ^ (Int.log 2 x - ((p : ℤ) - 1))) ≤ (2 : ℤ) ^ p := rne_le_int h2.le
  have k1q : (((2 : ℤ) ^ (p - 1) : ℤ) : ℚ) ≤ (rne (x / 2 ^ (Int.log 2 x - ((p : ℤ) - 1))) : ℚ) := by
    exact_mod_cast k1
  have k2q : (rne (x / 2 ^ (Int.log 2 x - ((p : ℤ) - 1))) : ℚ) ≤ (((2 : ℤ) ^ p : ℤ) : ℚ) := by
    exact_mod_cast k2
  have e1 : (((2 : ℤ) ^ (p - 1) : ℤ) : ℚ) * 2 ^ (Int.log 2 x - ((p : ℤ) - 1))
      = 2 ^ Int.log 2 x := by
    push_cast
    rw [← zpow_natCast, ← zpow_add₀ (by norm_num)]
    congr 1
    have : ((p - 1 : ℕ) : ℤ) = (p : ℤ) - 1 := by omega
    rw [this]; ring
  have e2 : (((2 : ℤ) ^ p : ℤ) : ℚ) * 2 ^ (Int.log 2 x - ((p : ℤ) - 1))
      = 2 ^ (Int.log 2 x + 1) := by
    push_cast
    rw [← zpow_natCast, ← zpow_add₀ (by norm_num)]
    congr 1
    ring
  rw [fround_of_pos p hx, ← e1, ← e2]
  exact ⟨mul_le_mul_of_nonneg_right k1q hs.le, mul_le_mul_of_nonneg_right k2q hs.le⟩

theorem fround_pos (p : ℕ) (hp : 1 ≤ p) {x : ℚ} (hx : 0 < x) : 0 < fround p x :=
  lt_of_lt_of_le (two_zpow_pos _) (fround_binade p hp hx).1

theorem fround_nonneg (p : ℕ) (hp : 1 ≤ p) {x : ℚ} (hx : 0 ≤ x) : 0 ≤ fround p x := by
  rcases eq_or_lt_of_le hx with h | h
  · rw [← h, fround_zero]
  · exact (fround_pos p hp h).le

/-- Rounding is monotone on the non-negative numbers. -/
theorem fround_mono (p : ℕ) (hp : 1 ≤ p) {x y : ℚ} (hx : 0 ≤ x) (hxy : x ≤ y) :
    fround p x ≤ fround p y := by
  rcases eq_or_lt_of_le hx with h0 | hx0
  · rw [← h0, fround_zero]; exact fround_nonneg p hp (le_trans hx hxy)
  have hy0 : 0 < y := lt_of_lt_of_le hx0 hxy
  have hlog : Int.log 2 x ≤ Int.log 2 y := Int.log_mono_right hx0 hxy
  rcases eq_or_lt_of_le hlog with he | hlt
  · rw [fround_of_pos p hx0, fround_of_pos p hy0, he]
    have hs := two_zpow_pos (Int.log 2 y - ((p : ℤ) - 1))
    apply mul_le_mul_of_nonneg_right _ hs.le
    have : x / 2 ^ (Int.log 2 y - ((p : ℤ) - 1)) ≤ y / 2 ^ (Int.log 2 y - ((p : ℤ) - 1)) :=
      div_le_div_of_nonneg_right hxy hs.le
    exact_mod_cast rne_mono this
  · have h1 := (fround_binade p hp hx0).2
    have h2 := (fround_binade p hp hy0).1
    have h3 : (2 : ℚ) ^ (Int.log 2 x + 1) ≤ 2 ^ Int.log 2 y :=
      zpow_le_zpow_right₀ (by norm_num) (by omega)
    linarith

/-- Relative error of rounding a non-negative number: at most `2^-p`. -/
theorem fround_error (p : ℕ) (hp : 1 ≤ p) {x : ℚ} (hx : 0 ≤ x) :
    |fround p x - x| * 2 ^ p ≤ x := by
  rcases eq_or_lt_of_le hx with h0 | hx0
  · rw [← h0, fround_zero]; simp
  obtain ⟨h1, -⟩ := scaled_bounds p hp hx0
  have hs := two_zpow_pos (Int.log 2 x - ((p : ℤ) - 1))
  have hr := rne_sub_le (x / 2 ^ (Int.log 2 x - ((p : ℤ) - 1)))
  have hx' : x = x / 2 ^ (Int.log 2 x - ((p : ℤ) - 1)) * 2 ^ (Int.log 2 x - ((p : ℤ) - 1)) := by
    field_simp
  rw [fround_of_pos p hx0]
  set s := (2 : ℚ) ^ (Int.log 2 x - ((p : ℤ) - 1)) with hsdef
  set z := x / s with hz
  have hfz : (rne z : ℚ) * s - x = ((rne z : ℚ) - z) * s := by rw [hx']; ring
  rw [hfz, abs_mul, abs_of_pos hs]
  have hp2 : (((2 : ℤ) ^ (p - 1) : ℤ) : ℚ) * 2 = 2 ^ p := by
    push_cast
    rw [← pow_succ]
    congr 1
    omega
  have hz2 : (2 : ℚ) ^ p ≤ 2 * z := by rw [← hp2]; linarith
  have hxz : x = z * s := hx'
  rw [hxz]
  have : |(rne z : ℚ) - z| * 2 ^ p ≤ z := by
    have h2p : (0 : ℚ) < 2 ^ p := by positivity
    nlinarith [abs_nonneg ((rne z : ℚ) - z)]
  calc |(rne z : ℚ) - z| * s * 2 ^ p = (|(rne z : ℚ) - z| * 2 ^ p) * s := by ring
    _ ≤ z * s := mul_le_mul_of_nonneg_right this hs.le

/-! ## Representable numbers -/

theorem representable_intCast (p : ℕ) (m : ℤ) (hm : |m| < 2 ^ p) :
    Representable p (m : ℚ) :=
  ⟨m, 0, hm, by simp⟩

/-- A representable number is left unchanged by rounding. -/
theorem fround_of_representable (p : ℕ) {x : ℚ} (h : Representable p x) (hx : 0 ≤ x) :
    fround p x = x := by
  rcases eq_or_lt_of_le hx with h0 | hx0
  · rw [← h0, fround_zero]
  obtain ⟨m, t, hm, rfl⟩ := h
  have ht := two_zpow_pos t
  have hm0 : 0 < m := by
    have : (0 : ℚ) < (m : ℚ) := pos_of_mul_pos_left hx0 ht.le
    exact_mod_cast this
  have hmp : (m : ℚ) < 2 ^ p := by
    have : m < 2 ^ p := lt_of_le_of_lt (le_abs_self m) hm
    exact_mod_cast this
  have hlt : (m : ℚ) * 2 ^ t < 2 ^ ((p : ℤ) + t) := by
    rw [zpow_add₀ (by norm_num), zpow_natCast]
    exact mul_lt_mul_of_pos_right hmp ht
  have hlog := log_lt_of_lt_zpow hx0 hlt
  rw [fround_of_pos p hx0]
  set e := Int.log 2 ((m : ℚ) * 2 ^ t) with he
  obtain ⟨d, hd⟩ : ∃ d : ℕ, t = (e - ((p : ℤ) - 1)) + d :=
    ⟨(t - (e - ((p : ℤ) - 1))).toNat, by omega⟩
  have hz : (m : ℚ) * 2 ^ t / 2 ^ (e - ((p : ℤ) - 1)) = ((m * 2 ^ d : ℤ) : ℚ) := by
    rw [hd, zpow_add₀ (by norm_num), zpow_natCast]
    push_cast
    field_simp
    ring
  rw [hz, rne_intCast]
  rw [hd, zpow_add₀ (by norm_num), zpow_natCast]
  push_cast
  ring

/-- The result of rounding a non-negative number is representable. -/
theorem representable_fround (p : ℕ) (hp : 1 ≤ p) {x : ℚ} (hx : 0 ≤ x) :
    Representable p (fround p x) := by
  rcases eq_or_lt_of_le hx with h0 | hx0
  · rw [← h0, fround_zero]; exact ⟨0, 0, by positivity, by simp⟩
  obtain ⟨h1, h2⟩ := scaled_bounds p hp hx0
  have k1 : (2 : ℤ) ^ (p - 1) ≤ rne (x / 2 ^ (Int.log 2 x - ((p : ℤ) - 1))) := int_le_rne h1
  have k2 : rne (x / 2 ^ (Int.log 2 x - ((p : ℤ) - 1))) ≤ (2 : ℤ) ^ p := rne_le_int h2.le
  have hpos : (0 : ℤ) < 2 ^ (p - 1) := by positivity
  rw [fround_of_pos p hx0]
  rcases eq_or_lt_of_le k2 with heq | hlt
  · refine ⟨2 ^ (p - 1), Int.log 2 x - ((p : ℤ) - 1) + 1, ?_, ?_⟩
    · rw [abs_of_pos hpos]
      exact pow_lt_pow_right₀ (by norm_num) (by omega)
    · rw [heq, zpow_add₀ (by norm_num)]
      push_cast
      have : (2 : ℚ) ^ p = 2 ^ (p - 1) * 2 := by
        rw [← pow_succ]; congr 1; omega
      rw [this]; ring
  · exact ⟨_, _, by rw [abs_of_pos (lt_of_lt_of_le hpos k1)]; exact hlt, rfl⟩

/-- A representable number of magnitude at least `2^k` is a multiple of `2^(k-p+1)`. -/
theorem representable_grid (p : ℕ) {x : ℚ} (h : Representable p x) {k : ℤ}
    (hk : (2 : ℚ) ^ k ≤ x) : ∃ P : ℤ, x = (P : ℚ) * 2 ^ (k - (p : ℤ) + 1) := by
  obtain ⟨m, t, hm, rfl⟩ := h
  have ht := two_zpow_pos t
  have hx0 : (0 : ℚ) < (m : ℚ) * 2 ^ t := lt_of_lt_of_le (two_zpow_pos k) hk
  have hmp : (m : ℚ) < 2 ^ p := by
    have : m < 2 ^ p := lt_of_le_of_lt (le_abs_self m) hm
    exact_mod_cast this
  have hlt : (2 : ℚ) ^ k < 2 ^ ((p : ℤ) + t) := by
    rw [zpow_add₀ (by norm_num) (p : ℤ) t, zpow_natCast]
    exact lt_of_le_of_lt hk (mul_lt_mul_of_pos_right hmp ht)
  have hkt : k < (p : ℤ) + t := (zpow_lt_zpow_iff_right₀ (by norm_num)).mp hlt
  obtain ⟨d, hd⟩ : ∃ d : ℕ, t = (k - (p : ℤ) + 1) + d :=
    ⟨(t - (k - (p : ℤ) + 1)).toNat, by omega⟩
  refine ⟨m * 2 ^ d, ?_⟩
  rw [hd, zpow_add₀ (by norm_num), zpow_natCast]
  push_cast
  ring

/-! ## The double-precision bucketing step is exact -/

theorem f64_eq_of_scaled (m t : ℤ) (hm0 : 0 ≤ m) (hm : m < 2 ^ 53) :
    f64 ((m : ℚ) * 2 ^ t) = (m : ℚ) * 2 ^ t := by
  apply fround_of_representable 53 ⟨m, t, by rw [abs_of_nonneg hm0]; exact hm, rfl⟩
  have := two_zpow_pos t
  have : (0 : ℚ) ≤ m := by exact_mod_cast hm0
  positivity

theorem f64_mono {x y : ℚ} (hx : 0 ≤ x) (hxy : x ≤ y) : f64 x ≤ f64 y :=
  fround_mono 53 (by norm_num) hx hxy

theorem f64_nonneg {x : ℚ} (hx : 0 ≤ x) : 0 ≤ f64 x :=
  fround_nonneg 53 (by norm_num) hx

/-- Lower half: the rounded sum does not fall below `floor (v / 5 + 1 / 2)`. -/
theorem bucket_lower {v : ℚ} (hv0 : 0 ≤ v) (hn : ⌊v / 5 + 1 / 2⌋ < 2 ^ 31) :
    (⌊v / 5 + 1 / 2⌋ : ℚ) ≤ f64 (f64 (v / 5) + 1 / 2) := by
  set n := ⌊v / 5 + 1 / 2⌋ with hndef
  have hn1 : (n : ℚ) ≤ v / 5 + 1 / 2 := Int.floor_le _
  have hy0 : (0 : ℚ) ≤ v / 5 := by positivity
  have hn0 : 0 ≤ n := Int.floor_nonneg.mpr (by positivity)
  have hfy0 := f64_nonneg hy0
  rcases eq_or_lt_of_le hn0 with h0 | hpos
  · rw [← h0]
    simpa using f64_nonneg (by linarith : (0 : ℚ) ≤ f64 (v / 5) + 1 / 2)
  · have hnq : (1 : ℚ) ≤ n := by exact_mod_cast hpos
    have hc : f64 (((2 * n - 1 : ℤ) : ℚ) * 2 ^ (-1 : ℤ)) = ((2 * n - 1 : ℤ) : ℚ) * 2 ^ (-1 : ℤ) :=
      f64_eq_of_scaled _ _ (by omega) (by omega)
    have hcv : ((2 * n - 1 : ℤ) : ℚ) * 2 ^ (-1 : ℤ) = n - 1 / 2 := by
      push_cast; norm_num; ring
    rw [hcv] at hc
    have h1 : (n : ℚ) - 1 / 2 ≤ f64 (v / 5) := by
      rw [← hc]; exact f64_mono (by linarith) (by linarith)
    have hnn : f64 ((n : ℚ) * 2 ^ (0 : ℤ)) = (n : ℚ) * 2 ^ (0 : ℤ) :=
      f64_eq_of_scaled _ _ hn0 (by omega)
    simp only [zpow_zero, mul_one] at hnn
    rw [← hnn]
    exact f64_mono (by linarith) (by linarith)

/-- Upper half: the rounded sum stays below `floor (v / 5 + 1 / 2) + 1`. -/
theorem bucket_upper {v : ℚ} (hv : Representable 24 v) (hv0 : 0 ≤ v)
    (hn : ⌊v / 5 + 1 / 2⌋ < 2 ^ 31) :
    f64 (f64 (v / 5) + 1 / 2) < (⌊v / 5 + 1 / 2⌋ : ℚ) + 1 := by
  set n := ⌊v / 5 + 1 / 2⌋ with hndef
  have hn1 : (n : ℚ) ≤ v / 5 + 1 / 2 := Int.floor_le _
  have hn2 : v / 5 + 1 / 2 < (n : ℚ) + 1 := Int.lt_floor_add_one _
  have hy0 : (0 : ℚ) ≤ v / 5 := by positivity
  have hn0 : 0 ≤ n := Int.floor_nonneg.mpr (by positivity)
  have hnq : (0 : ℚ) ≤ n := by exact_mod_cast hn0
  have hfy0 := f64_nonneg hy0
  -- a representable `r` with `v / 5 ≤ r` and `r + 1 / 2` representable below `n + 1`
  suffices h : ∃ m t : ℤ, 0 ≤ m ∧ m < 2 ^ 53 ∧ v / 5 ≤ (m : ℚ) * 2 ^ t ∧
      ∃ m' : ℤ, 0 ≤ m' ∧ m' < 2 ^ 53 ∧ (m : ℚ) * 2 ^ t + 1 / 2 = (m' : ℚ) * 2 ^ t ∧
        (m' : ℚ) * 2 ^ t < (n : ℚ) + 1 by
    obtain ⟨m, t, hm0, hm, hle, m', hm0', hm', heq, hlt⟩ := h
    have h1 : f64 (v / 5) ≤ (m : ℚ) * 2 ^ t := by
      rw [← f64_eq_of_scaled m t hm0 hm]; exact f64_mono hy0 hle
    have h2 : f64 (f64 (v / 5) + 1 / 2) ≤ (m' : ℚ) * 2 ^ t := by
      rw [← f64_eq_of_scaled m' t hm0' hm']
      exact f64_mono (by linarith) (by linarith)
    linarith
  by_cases hA : v / 5 ≤ (n : ℚ) + 7 / 16
  · refine ⟨16 * n + 7, -4, by omega, by omega, ?_, 16 * n + 15, by omega, by omega, ?_, ?_⟩
    · push_cast; norm_num; linarith
    · push_cast; norm_num; ring
    · push_cast; norm_num; linarith
  · push_neg at hA
    have hv2 : (2 : ℚ) ^ (1 : ℤ) ≤ v := by norm_num; linarith
    obtain ⟨P, hP⟩ := representable_grid 24 hv hv2
    norm_num at hP
    have hsmall : v < 2 ^ 23 := by
      by_contra hbig
      push_neg at hbig
      obtain ⟨Q, hQ⟩ := representable_grid 24 hv (k := 23) (by norm_num at hbig ⊢; exact hbig)
      norm_num at hQ
      have h1 : ((2 * Q : ℤ) : ℚ) < ((10 * n + 5 : ℤ) : ℚ) := by
        push_cast; rw [← hQ]; linarith
      have h2 : 2 * Q < 10 * n + 5 := by exact_mod_cast h1
      have h3 : 2 * Q ≤ 10 * n + 4 := by omega
      have h4 : ((2 * Q : ℤ) : ℚ) ≤ ((10 * n + 4 : ℤ) : ℚ) := by exact_mod_cast h3
      push_cast at h4
      rw [← hQ] at h4
      linarith
    have hnsmall : n < 2 ^ 21 := by
      have : (n : ℚ) < ((2 ^ 21 : ℤ) : ℚ) := by push_cast; norm_num at hsmall ⊢; linarith
      exact_mod_cast this
    have h1 : ((2 * P : ℤ) : ℚ) < (((10 * n + 5) * 4194304 : ℤ) : ℚ) := by
      push_cast
      have : v * 4194304 = P := by rw [hP]; ring
      rw [← this]; linarith
    have h2 : 2 * P < (10 * n + 5) * 4194304 := by exact_mod_cast h1
    have h3 : 2 * P ≤ (10 * n + 5) * 4194304 - 1 := by omega
    have h4 : ((2 * P : ℤ) : ℚ) ≤ (((10 * n + 5) * 4194304 - 1 : ℤ) : ℚ) := by exact_mod_cast h3
    push_cast at h4
    refine ⟨(2 * n + 1) * 33554432 - 1, -26, by omega, by omega, ?_,
      (n + 1) * 67108864 - 1, by omega, by omega, ?_, ?_⟩
    · push_cast; norm_num
      rw [hP]; linarith
    · push_cast; norm_num; ring
    · push_cast; norm_num; linarith

/-- For a non-negative single-precision `v` the double-precision evaluation of
`v / 5.0 + 0.5` has the same integer part as the exact value. -/
theorem bucket_floor {v : ℚ} (hv : Representable 24 v) (hv0 : 0 ≤ v)
    (hn : ⌊v / 5 + 1 / 2⌋ < 2 ^ 31) :
    ⌊f64 (f64 (v / 5) + 1 / 2)⌋ = ⌊v / 5 + 1 / 2⌋ := by
  rw [Int.floor_eq_iff]
  exact ⟨bucket_lower hv0 hn, bucket_upper hv hv0 hn⟩

/-! ## Symmetry of rounding -/

theorem rne_neg (z : ℚ) : rne (-z) = -rne z := by
  have hf1 : (⌊z⌋ : ℚ) ≤ z := Int.floor_le z
  have hf2 : z < ⌊z⌋ + 1 := Int.lt_floor_add_one z
  have hg1 : (⌊-z⌋ : ℚ) ≤ -z := Int.floor_le (-z)
  have hg2 : -z < ⌊-z⌋ + 1 := Int.lt_floor_add_one (-z)
  have hle : ⌊-z⌋ ≤ -⌊z⌋ := by
    have : (⌊-z⌋ : ℚ) ≤ ((-⌊z⌋ : ℤ) : ℚ) := by push_cast; linarith
    exact_mod_cast this
  have hge : -⌊z⌋ - 1 ≤ ⌊-z⌋ := by
    have : ((-⌊z⌋ - 1 : ℤ) : ℚ) < (⌊-z⌋ : ℚ) + 1 := by push_cast; linarith
    have : ((-⌊z⌋ - 1 : ℤ) : ℚ) < ((⌊-z⌋ + 1 : ℤ) : ℚ) := by push_cast; push_cast at this; linarith
    have : -⌊z⌋ - 1 < ⌊-z⌋ + 1 := by exact_mod_cast this
    omega
  rcases eq_or_lt_of_le hle with heq | hlt
  · have hz : z = (⌊z⌋ : ℚ) := by
      have : (⌊-z⌋ : ℚ) = -(⌊z⌋ : ℚ) := by exact_mod_cast heq
      linarith
    rw [hz, ← Int.cast_neg, rne_intCast, rne_intCast]
  · have hg : ⌊-z⌋ = -⌊z⌋ - 1 := by omega
    have hgq : (⌊-z⌋ : ℚ) = -(⌊z⌋ : ℚ) - 1 := by exact_mod_cast hg
    unfold rne
    rw [hg]
    push_cast
    split_ifs <;> first | omega | (exfalso; linarith)

theorem fround_neg (p : ℕ) (x : ℚ) : fround p (-x) = -fround p x := by
  unfold fround ulpExp
  by_cases hx : x = 0
  · simp [hx]
  · rw [if_neg hx, if_neg (neg_ne_zero.mpr hx), abs_neg, neg_div, rne_neg]
    push_cast
    ring

theorem representable_neg {p : ℕ} {x : ℚ} (h : Representable p x) : Representable p (-x) := by
  obtain ⟨m, t, hm, rfl⟩ := h
  exact ⟨-m, t, by rwa [abs_neg], by push_cast; ring⟩

/-- A representable number of either sign is left unchanged by rounding. -/
theorem fround_eq_self (p : ℕ) {x : ℚ} (h : Representable p x) : fround p x = x := by
  rcases le_total 0 x with hx | hx
  · exact fround_of_representable p h hx
  · have := fround_of_representable p (representable_neg h) (neg_nonneg.mpr hx)
    rw [fround_neg] at this
    linarith

theorem f64_intCast (k : ℤ) (hk : |k| < 2 ^ 53) : f64 (k : ℚ) = k :=
  fround_eq_self 53 (representable_intCast 53 k hk)

theorem f32_intCast (k : ℤ) (hk : |k| < 2 ^ 24) : f32 (k : ℚ) = k :=
  fround_eq_self 24 (representable_intCast 24 k hk)

/-! ## Conversions to integer types -/

theorem truncQ_intCast (k : ℤ) : truncQ (k : ℚ) = k := by
  unfold truncQ
  split_ifs <;> simp

theorem truncQ_of_nonneg {x : ℚ} (hx : 0 ≤ x) : truncQ x = ⌊x⌋ := by
  unfold truncQ
  rw [if_pos hx]

theorem wrapSigned_range (w : ℕ) (hw : 1 ≤ w) (x : ℤ) :
    -2 ^ (w - 1) ≤ wrapSigned w x ∧ wrapSigned w x < 2 ^ (w - 1) := by
  unfold wrapSigned
  have h2 : (2 : ℤ) ^ w = 2 * 2 ^ (w - 1) := by
    rw [← pow_succ']; congr 1; omega
  have hpos : (0 : ℤ) < 2 ^ w := by positivity
  have h0 := Int.emod_nonneg (x + 2 ^ (w - 1)) hpos.ne'
  have h1 := Int.emod_lt_of_pos (x + 2 ^ (w - 1)) hpos
  constructor <;> linarith

theorem wrapSigned_of_range (w : ℕ) (hw : 1 ≤ w) (x : ℤ)
    (h1 : -2 ^ (w - 1) ≤ x) (h2 : x < 2 ^ (w - 1)) : wrapSigned w x = x := by
  unfold wrapSigned
  have h : (2 : ℤ) ^ w = 2 * 2 ^ (w - 1) := by
    rw [← pow_succ']; congr 1; omega
  rw [Int.emod_eq_of_lt (by linarith) (by linarith)]
  ring

theorem toGint_of_range (x : ℤ) (h1 : -2147483648 ≤ x) (h2 : x < 2147483648) :
    toGint x = x :=
  wrapSigned_of_range 32 (by norm_num) x (by norm_num; exact h1) (by norm_num; exact h2)

/-- The result of a conversion lies in the range of the target type. -/
theorem floatToSigned_range (w : ℕ) (hw : 1 ≤ w) (ub : ℤ) (x : Option ℚ) :
    -2 ^ (w - 1) ≤ floatToSigned w ub x ∧ floatToSigned w ub x < 2 ^ (w - 1) := by
  unfold floatToSigned
  cases x with
  | none => exact wrapSigned_range w hw ub
  | some v =>
    dsimp only
    split_ifs with h
    · obtain ⟨h1, h2⟩ := h
      unfold truncQ
      split_ifs with h0
      · constructor
        · have : (0 : ℤ) ≤ ⌊v⌋ := Int.floor_nonneg.mpr h0
          have hp : (0 : ℤ) < 2 ^ (w - 1) := by positivity
          linarith
        · rw [Int.floor_lt]; push_cast; exact h2
      · push_neg at h0
        constructor
        · have : (-2 ^ (w - 1) - 1 : ℤ) < ⌈v⌉ := by
            rw [Int.lt_ceil]; push_cast; exact h1
          omega
        · have : ⌈v⌉ ≤ 0 := Int.ceil_le.mpr (by exact_mod_cast h0.le)
          have hp : (0 : ℤ) < 2 ^ (w - 1) := by positivity
          linarith
    · exact wrapSigned_range w hw ub

theorem floatToSigned_intCast (w : ℕ) (ub k : ℤ) (h1 : -2 ^ (w - 1) ≤ k) (h2 : k < 2 ^ (w - 1)) :
    floatToSigned w ub (some (k : ℚ)) = k := by
  unfold floatToSigned
  dsimp only
  have a1 : -(2 : ℚ) ^ (w - 1) - 1 < (k : ℚ) := by
    have : ((-2 ^ (w - 1) : ℤ) : ℚ) ≤ (k : ℚ) := by exact_mod_cast h1
    push_cast at this; linarith
  have a2 : (k : ℚ) < (2 : ℚ) ^ (w - 1) := by exact_mod_cast h2
  rw [if_pos ⟨a1, a2⟩, truncQ_intCast]

/-- The bucket is five times the `int` produced by the cast. -/
theorem nearest_5_eq (ub actual max : ℤ) :
    nearest_5 ub actual max =
      floatToSigned 32 ub
        ((percentage actual max).map fun perc => f64 (f64 (perc / 5) + 1 / 2)) * 5 := by
  unfold nearest_5
  dsimp only
  obtain ⟨h1, h2⟩ := floatToSigned_range 32 (by norm_num) ub
    ((percentage actual max).map fun perc => f64 (f64 (perc / 5) + 1 / 2))
  set n := floatToSigned 32 ub
    ((percentage actual max).map fun perc => f64 (f64 (perc / 5) + 1 / 2)) with hn
  norm_num at h1 h2
  rw [f64_intCast n (by rw [abs_lt]; constructor <;> norm_num <;> omega)]
  have : (n : ℚ) * 5 = ((n * 5 : ℤ) : ℚ) := by push_cast; ring
  rw [this, f64_intCast (n * 5) (by rw [abs_lt]; constructor <;> norm_num <;> omega)]
  exact floatToSigned_intCast 64 ub (n * 5) (by norm_num; omega) (by norm_num; omega)

/-! ## The single-precision percentage -/

theorem f32_nonneg {x : ℚ} (hx : 0 ≤ x) : 0 ≤ f32 x :=
  fround_nonneg 24 (by norm_num) hx

theorem f32_pos {x : ℚ} (hx : 0 < x) : 0 < f32 x :=
  fround_pos 24 (by norm_num) hx

theorem f32_mono {x y : ℚ} (hx : 0 ≤ x) (hxy : x ≤ y) : f32 x ≤ f32 y :=
  fround_mono 24 (by norm_num) hx hxy

theorem f32_bounds {x : ℚ} (hx : 0 ≤ x) :
    (1 - 1 / 2 ^ 24) * x ≤ f32 x ∧ f32 x ≤ (1 + 1 / 2 ^ 24) * x := by
  have h := fround_error 24 (by norm_num) hx
  have h1 := le_abs_self (fround 24 x - x)
  have h2 := neg_abs_le (fround 24 x - x)
  unfold f32
  constructor <;> norm_num at h ⊢ <;> linarith

theorem percentage_of_pos (raw max : ℤ) (hmax : 0 < max) :
    percentage raw max = some (f32 (f32 (f32 raw / f32 max) * 100)) := by
  have hb : 0 < f32 (max : ℚ) := f32_pos (by exact_mod_cast hmax)
  unfold percentage fdiv32
  rw [if_neg hb.ne']
  rfl

/-- Two-sided bound on the computed percentage, from a two-sided bound on the
converted numerator. -/
theorem perc_core {a b r m : ℚ} (ca da : ℚ) (hr : 0 ≤ r) (hm : 0 < m) (hda : 0 ≤ da)
    (ha1 : da * r ≤ a) (ha2 : a ≤ ca * r)
    (hb1 : (1 - 1 / 2 ^ 24) * m ≤ b) (hb2 : b ≤ (1 + 1 / 2 ^ 24) * m) :
    (1 - 1 / 2 ^ 24) * ((1 - 1 / 2 ^ 24) * (da * r / ((1 + 1 / 2 ^ 24) * m)) * 100)
        ≤ f32 (f32 (a / b) * 100) ∧
      f32 (f32 (a / b) * 100)
        ≤ (1 + 1 / 2 ^ 24) * ((1 + 1 / 2 ^ 24) * (ca * r / ((1 - 1 / 2 ^ 24) * m)) * 100) := by
  have hd : (0 : ℚ) < 1 - 1 / 2 ^ 24 := by norm_num
  have hc : (0 : ℚ) < 1 + 1 / 2 ^ 24 := by norm_num
  have hdm : 0 < (1 - 1 / 2 ^ 24) * m := mul_pos hd hm
  have hcm : 0 < (1 + 1 / 2 ^ 24) * m := mul_pos hc hm
  have hb0 : 0 < b := lt_of_lt_of_le hdm hb1
  have ha0 : 0 ≤ a := le_trans (mul_nonneg hda hr) ha1
  have hab0 : 0 ≤ a / b := div_nonneg ha0 hb0.le
  have hq := f32_bounds hab0
  have hq0 : 0 ≤ f32 (a / b) := f32_nonneg hab0
  have hv := f32_bounds (mul_nonneg hq0 (by norm_num : (0 : ℚ) ≤ 100))
  have hup : a / b ≤ ca * r / ((1 - 1 / 2 ^ 24) * m) :=
    div_le_div₀ (le_trans ha0 ha2) ha2 hdm hb1
  have hlo : da * r / ((1 + 1 / 2 ^ 24) * m) ≤ a / b :=
    div_le_div₀ ha0 ha1 hb0 hb2
  constructor
  · refine le_trans ?_ hv.1
    apply mul_le_mul_of_nonneg_left _ hd.le
    apply mul_le_mul_of_nonneg_right _ (by norm_num)
    refine le_trans ?_ hq.1
    exact mul_le_mul_of_nonneg_left hlo hd.le
  · refine le_trans hv.2 ?_
    apply mul_le_mul_of_nonneg_left _ hc.le
    apply mul_le_mul_of_nonneg_right _ (by norm_num)
    refine le_trans hq.2 ?_
    exact mul_le_mul_of_nonneg_left hup hc.le

/-- The computed percentage is within a relative error of `2^-21` of the exact one. -/
theorem perc_error (raw max : ℤ) (hraw : 0 ≤ raw) (hmax : 0 < max) :
    |f32 (f32 (f32 raw / f32 max) * 100) - 100 * (raw : ℚ) / max|
      ≤ 100 * (raw : ℚ) / max / 2 ^ 21 := by
  have hr : (0 : ℚ) ≤ raw := by exact_mod_cast hraw
  have hm : (0 : ℚ) < max := by exact_mod_cast hmax
  have ha := f32_bounds hr
  have hb := f32_bounds hm.le
  obtain ⟨h1, h2⟩ := perc_core _ _ hr hm (by norm_num) ha.1 ha.2 hb.1 hb.2
  have hp : (0 : ℚ) ≤ (raw : ℚ) / max := div_nonneg hr hm.le
  have e1 : (1 - 1 / 2 ^ 24) * ((1 - 1 / 2 ^ 24) * ((1 - 1 / 2 ^ 24) * (raw : ℚ)
      / ((1 + 1 / 2 ^ 24) * max)) * 100)
      = ((1 - 1 / 2 ^ 24) ^ 3 / (1 + 1 / 2 ^ 24) * 100) * ((raw : ℚ) / max) := by
    field_simp
    ring
  have e2 : (1 + 1 / 2 ^ 24) * ((1 + 1 / 2 ^ 24) * ((1 + 1 / 2 ^ 24) * (raw : ℚ)
      / ((1 - 1 / 2 ^ 24) * max)) * 100)
      = ((1 + 1 / 2 ^ 24) ^ 3 / (1 - 1 / 2 ^ 24) * 100) * ((raw : ℚ) / max) := by
    field_simp
    ring
  rw [e1] at h1
  rw [e2] at h2
  have k1 : (100 - 100 / 2 ^ 21 : ℚ) ≤ (1 - 1 / 2 ^ 24) ^ 3 / (1 + 1 / 2 ^ 24) * 100 := by
    norm_num
  have k2 : (1 + 1 / 2 ^ 24) ^ 3 / (1 - 1 / 2 ^ 24) * 100 ≤ (100 + 100 / 2 ^ 21 : ℚ) := by
    norm_num
  have g1 := le_trans (mul_le_mul_of_nonneg_right k1 hp) h1
  have g2 := le_trans h2 (mul_le_mul_of_nonneg_right k2 hp)
  rw [abs_le]
  constructor
  · have : 100 * (raw : ℚ) / max / 2 ^ 21 = (100 / 2 ^ 21) * ((raw : ℚ) / max) := by ring
    rw [this]
    have : 100 * (raw : ℚ) / max = 100 * ((raw : ℚ) / max) := by ring
    rw [this]
    linarith
  · have : 100 * (raw : ℚ) / max / 2 ^ 21 = (100 / 2 ^ 21) * ((raw : ℚ) / max) := by ring
    rw [this]
    have : 100 * (raw : ℚ) / max = 100 * ((raw : ℚ) / max) := by ring
    rw [this]
    linarith

/-- With an exactly converted numerator the relative error is at most `2^-22`. -/
theorem perc_error_small (raw max : ℤ) (hraw : 0 ≤ raw) (hsmall : raw < 2 ^ 24)
    (hmax : 0 < max) :
    |f32 (f32 (f32 raw / f32 max) * 100) - 100 * (raw : ℚ) / max|
      ≤ 100 * (raw : ℚ) / max / 2 ^ 22 := by
  have hr : (0 : ℚ) ≤ raw := by exact_mod_cast hraw
  have hm : (0 : ℚ) < max := by exact_mod_cast hmax
  have ha : f32 (raw : ℚ) = raw := f32_intCast raw (by rw [abs_of_nonneg hraw]; exact hsmall)
  have hb := f32_bounds hm.le
  rw [ha]
  obtain ⟨h1, h2⟩ := perc_core (a := (raw : ℚ)) 1 1 hr hm (by norm_num)
    (by linarith) (by linarith) hb.1 hb.2
  have hp : (0 : ℚ) ≤ (raw : ℚ) / max := div_nonneg hr hm.le
  have e1 : (1 - 1 / 2 ^ 24) * ((1 - 1 / 2 ^ 24) * (1 * (raw : ℚ)
      / ((1 + 1 / 2 ^ 24) * max)) * 100)
      = ((1 - 1 / 2 ^ 24) ^ 2 / (1 + 1 / 2 ^ 24) * 100) * ((raw : ℚ) / max) := by
    field_simp
    ring
  have e2 : (1 + 1 / 2 ^ 24) * ((1 + 1 / 2 ^ 24) * (1 * (raw : ℚ)
      / ((1 - 1 / 2 ^ 24) * max)) * 100)
      = ((1 + 1 / 2 ^ 24) ^ 2 / (1 - 1 / 2 ^ 24) * 100) * ((raw : ℚ) / max) := by
    field_simp
    ring
  rw [e1] at h1
  rw [e2] at h2
  have k1 : (100 - 100 / 2 ^ 22 : ℚ) ≤ (1 - 1 / 2 ^ 24) ^ 2 / (1 + 1 / 2 ^ 24) * 100 := by
    norm_num
  have k2 : (1 + 1 / 2 ^ 24) ^ 2 / (1 - 1 / 2 ^ 24) * 100 ≤ (100 + 100 / 2 ^ 22 : ℚ) := by
    norm_num
  have g1 := le_trans (mul_le_mul_of_nonneg_right k1 hp) h1
  have g2 := le_trans h2 (mul_le_mul_of_nonneg_right k2 hp)
  rw [abs_le]
  constructor
  · have : 100 * (raw : ℚ) / max / 2 ^ 22 = (100 / 2 ^ 22) * ((raw : ℚ) / max) := by ring
    rw [this]
    have : 100 * (raw : ℚ) / max = 100 * ((raw : ℚ) / max) := by ring
    rw [this]
    linarith
  · have : 100 * (raw : ℚ) / max / 2 ^ 22 = (100 / 2 ^ 22) * ((raw : ℚ) / max) := by ring
    rw [this]
    have : 100 * (raw : ℚ) / max = 100 * ((raw : ℚ) / max) := by ring
    rw [this]
    linarith

/-! ## Evaluating a rounding -/

theorem rne_eq_of_near {z : ℚ} {m : ℤ} (h1 : (m : ℚ) - 1 / 2 < z) (h2 : z < (m : ℚ) + 1 / 2) :
    rne z = m := by
  have h := rne_sub_le z
  rw [abs_le] at h
  have a1 : ((rne z - m : ℤ) : ℚ) < 1 := by push_cast; linarith
  have a2 : (-1 : ℚ) < ((rne z - m : ℤ) : ℚ) := by push_cast; linarith
  have b1 : rne z - m < 1 := by exact_mod_cast a1
  have b2 : -1 < rne z - m := by exact_mod_cast a2
  omega

/-- Rounding of a positive number from its binade `e` and the nearest significand `m`. -/
theorem fround_eval (p : ℕ) {x : ℚ} (hx : 0 < x) (e m : ℤ)
    (h1 : (2 : ℚ) ^ e ≤ x) (h2 : x < (2 : ℚ) ^ (e + 1))
    (h3 : (m : ℚ) - 1 / 2 < x / 2 ^ (e - ((p : ℤ) - 1)))
    (h4 : x / 2 ^ (e - ((p : ℤ) - 1)) < (m : ℚ) + 1 / 2) :
    fround p x = (m : ℚ) * 2 ^ (e - ((p : ℤ) - 1)) := by
  have he : Int.log 2 x = e := by
    have a := le_log_of_zpow_le hx h1
    have b := log_lt_of_lt_zpow hx h2
    omega
  rw [fround_of_pos p hx, he, rne_eq_of_near h3 h4]

/-! ## The bucket of a reading in the device's range -/

/-- For `0 ≤ raw ≤ 10^8 * max` the `(int)` cast is defined and the bucket is
`floor (perc / 5 + 1 / 2) * 5` for the computed percentage `perc`. -/
theorem nearest_5_of_nonneg (ub raw max : ℤ) (hraw : 0 ≤ raw) (hmax : 0 < max)
    (hr : raw ≤ 100000000 * max) :
    0 ≤ f32 (f32 (f32 raw / f32 max) * 100) ∧
    ⌊f32 (f32 (f32 raw / f32 max) * 100) / 5 + 1 / 2⌋ < 2 ^ 31 ∧
    ⌊f64 (f64 (f32 (f32 (f32 raw / f32 max) * 100) / 5) + 1 / 2)⌋
      = ⌊f32 (f32 (f32 raw / f32 max) * 100) / 5 + 1 / 2⌋ ∧
    nearest_5 ub raw max = ⌊f32 (f32 (f32 raw / f32 max) * 100) / 5 + 1 / 2⌋ * 5 := by
  have hrq : (0 : ℚ) ≤ raw := by exact_mod_cast hraw
  have hmq : (0 : ℚ) < max := by exact_mod_cast hmax
  have ha0 : 0 ≤ f32 (raw : ℚ) := f32_nonneg hrq
  have hb0 : 0 < f32 (max : ℚ) := f32_pos hmq
  have hq0 : 0 ≤ f32 (f32 (raw : ℚ) / f32 (max : ℚ)) := f32_nonneg (div_nonneg ha0 hb0.le)
  have hx0 : 0 ≤ f32 (f32 (raw : ℚ) / f32 (max : ℚ)) * 100 := mul_nonneg hq0 (by norm_num)
  have herr := perc_error raw max hraw hmax
  set v := f32 (f32 (f32 (raw : ℚ) / f32 (max : ℚ)) * 100) with hv
  have hv0 : 0 ≤ v := f32_nonneg hx0
  have hrep : Representable 24 v := representable_fround 24 (by norm_num) hx0
  have hp : 100 * (raw : ℚ) / max ≤ 10000000000 := by
    rw [div_le_iff₀ hmq]
    have : (raw : ℚ) ≤ 100000000 * max := by exact_mod_cast hr
    linarith
  have hp0 : 0 ≤ 100 * (raw : ℚ) / max := by positivity
  have hvle : v ≤ 10000005000 := by
    have := (abs_le.mp herr).2
    have h2 : 100 * (raw : ℚ) / max / 2 ^ 21 ≤ 10000000000 / 2 ^ 21 :=
      div_le_div_of_nonneg_right hp (by norm_num)
    norm_num at h2 ⊢
    linarith
  have hn : ⌊v / 5 + 1 / 2⌋ < 2 ^ 31 := by
    rw [Int.floor_lt]
    push_cast
    linarith
  have hfl := bucket_floor hrep hv0 hn
  refine ⟨hv0, hn, hfl, ?_⟩
  have hlow := bucket_lower hv0 hn
  have hupp := bucket_upper hrep hv0 hn
  have hn0 : 0 ≤ ⌊v / 5 + 1 / 2⌋ := Int.floor_nonneg.mpr (by positivity)
  have hw0 : 0 ≤ f64 (f64 (v / 5) + 1 / 2) := by
    have : (0 : ℚ) ≤ (⌊v / 5 + 1 / 2⌋ : ℚ) := by exact_mod_cast hn0
    linarith
  rw [nearest_5_eq, percentage_of_pos raw max hmax, ← hv]
  simp only [Option.map_some']
  unfold floatToSigned
  dsimp only
  have hnq : ((⌊v / 5 + 1 / 2⌋ : ℤ) : ℚ) + 1 ≤ 2 ^ 31 := by
    have : ⌊v / 5 + 1 / 2⌋ + 1 ≤ 2 ^ 31 := by omega
    exact_mod_cast this
  rw [if_pos ⟨by norm_num; linarith, by norm_num at hnq ⊢; linarith⟩, truncQ_of_nonneg hw0, hfl]

/-! ## Concrete readings -/

theorem f32_21_div_40 : f32 ((21 : ℚ) / 40) = 4404019 / 8388608 := by
  have h := fround_eval 24 (x := (21 : ℚ) / 40) (by norm_num) (-1) 8808038
    (by norm_num) (by norm_num) (by norm_num) (by norm_num)
  unfold f32
  rw [h]
  norm_num

theorem f32_perc_21_40 : f32 ((4404019 : ℚ) / 8388608 * 100) = 13762559 / 262144 := by
  have h := fround_eval 24 (x := (4404019 : ℚ) / 8388608 * 100) (by norm_num) 5 13762559
    (by norm_num) (by norm_num) (by norm_num) (by norm_num)
  unfold f32
  rw [h]
  norm_num

theorem percentage_21_40 : percentage 21 40 = some (13762559 / 262144) := by
  rw [percentage_of_pos 21 40 (by norm_num)]
  have h21 : f32 ((21 : ℤ) : ℚ) = ((21 : ℤ) : ℚ) := f32_intCast 21 (by norm_num)
  have h40 : f32 ((40 : ℤ) : ℚ) = ((40 : ℤ) : ℚ) := f32_intCast 40 (by norm_num)
  rw [h21, h40]
  push_cast
  rw [f32_21_div_40, f32_perc_21_40]

theorem nearest_5_21_40 (ub : ℤ) : nearest_5 ub 21 40 = 50 := by
  obtain ⟨-, -, -, h⟩ := nearest_5_of_nonneg ub 21 40 (by norm_num) (by norm_num) (by norm_num)
  have hp := percentage_21_40
  rw [percentage_of_pos 21 40 (by norm_num)] at hp
  rw [h, Option.some.inj hp]
  have : ⌊(13762559 : ℚ) / 262144 / 5 + 1 / 2⌋ = 10 := by
    rw [Int.floor_eq_iff]; constructor <;> norm_num
  rw [this]
  norm_num

theorem f32_one_div_10 : f32 ((1 : ℚ) / 10) = 13421773 / 134217728 := by
  have h := fround_eval 24 (x := (1 : ℚ) / 10) (by norm_num) (-4) 13421773
    (by norm_num) (by norm_num) (by norm_num) (by norm_num)
  unfold f32
  rw [h]
  norm_num

theorem f32_perc_10_100 : f32 ((13421773 : ℚ) / 134217728 * 100) = 10 := by
  have h := fround_eval 24 (x := (13421773 : ℚ) / 134217728 * 100) (by norm_num) 3 10485760
    (by norm_num) (by norm_num) (by norm_num) (by norm_num)
  unfold f32
  rw [h]
  norm_num

theorem percentage_neg10_100 : percentage (-10) 100 = some (-10) := by
  rw [percentage_of_pos (-10) 100 (by norm_num)]
  have h10 : f32 ((-10 : ℤ) : ℚ) = ((-10 : ℤ) : ℚ) := f32_intCast (-10) (by norm_num)
  have h100 : f32 ((100 : ℤ) : ℚ) = ((100 : ℤ) : ℚ) := f32_intCast 100 (by norm_num)
  rw [h10, h100]
  push_cast
  have e : (-10 : ℚ) / 100 = -(1 / 10) := by norm_num
  rw [e]
  unfold f32
  rw [fround_neg, neg_mul, fround_neg]
  have := f32_one_div_10
  have h2 := f32_perc_10_100
  unfold f32 at this h2
  rw [this, h2]

theorem f64_bucket_neg10 : f64 (f64 ((-10 : ℚ) / 5) + 1 / 2) = -3 / 2 := by
  have e : (-10 : ℚ) / 5 = ((-2 : ℤ) : ℚ) := by norm_num
  rw [e, f64_intCast (-2) (by norm_num)]
  have e2 : (((-2 : ℤ) : ℚ)) + 1 / 2 = ((-3 : ℤ) : ℚ) * 2 ^ (-1 : ℤ) := by norm_num
  rw [e2]
  have h := fround_eq_self 53 (x := ((-3 : ℤ) : ℚ) * 2 ^ (-1 : ℤ)) ⟨-3, -1, by norm_num, rfl⟩
  unfold f64
  rw [h]
  norm_num

theorem nearest_5_neg10_100 (ub : ℤ) : nearest_5 ub (-10) 100 = -5 := by
  rw [nearest_5_eq, percentage_neg10_100]
  simp only [Option.map_some']
  rw [f64_bucket_neg10]
  unfold floatToSigned
  dsimp only
  rw [if_pos (by norm_num)]
  have : truncQ (-3 / 2) = -1 := by
    unfold truncQ
    rw [if_neg (by norm_num), Int.ceil_eq_iff]
    constructor <;> norm_num
  rw [this]
  norm_num

theorem percentage_self (max : ℤ) (hmax : 0 < max) : percentage max max = some 100 := by
  rw [percentage_of_pos max max hmax]
  have hb : 0 < f32 (max : ℚ) := f32_pos (by exact_mod_cast hmax)
  rw [div_self hb.ne']
  have h1 : f32 (1 : ℚ) = 1 := by simpa using f32_intCast 1 (by norm_num)
  rw [h1, one_mul]
  have h100 : f32 (100 : ℚ) = 100 := by simpa using f32_intCast 100 (by norm_num)
  rw [h100]

theorem percentage_zero (max : ℤ) (hmax : 0 < max) : percentage 0 max = some 0 := by
  rw [percentage_of_pos 0 max hmax]
  have h0 : f32 (0 : ℚ) = 0 := fround_zero 24
  simp [h0]

/-! ## The callback -/

theorem callback_changed_differs (env : Env) (config : Config) (context : Context)
    (file : GFile) (r mx : ℤ) (hr : read_int env file = .ok r)
    (hm : read_int env context.max_brightness = .ok mx) (hne : context.backlight ≠ r) :
    backlight_callback env config context file .CHANGED =
      ({ context with
          notification := (notify_message context.notification (some "Backlight") none
            NotifyUrgency.LOW (some (notify_icon (toGint (nearest_5 env.conv_ub r mx))))
            config.timeout (toGint (nearest_5 env.conv_ub r mx))).1
          backlight := r },
        [Effect.read file, Effect.debug "actual_brightness is changed",
          Effect.read context.max_brightness] ++
        (notify_message context.notification (some "Backlight") none
            NotifyUrgency.LOW (some (notify_icon (toGint (nearest_5 env.conv_ub r mx))))
            config.timeout (toGint (nearest_5 env.conv_ub r mx))).2) := by
  unfold backlight_callback
  simp only [hr, hm]
  rw [if_pos hne]

theorem callback_changed_same (env : Env) (config : Config) (context : Context)
    (file : GFile) (r : ℤ) (hr : read_int env file = .ok r) (heq : context.backlight = r) :
    backlight_callback env config context file .CHANGED = (context, [Effect.read file]) := by
  unfold backlight_callback
  simp only [hr]
  rw [if_neg (not_not.mpr heq)]

theorem shown_notify_message (n : NotifyNotification) (s b i : Option String)
    (u : NotifyUrgency) (t br : ℤ) (pre : List Effect) (hpre : shown pre = []) :
    shown (pre ++ (notify_message n s b u i t br).2) = [(notify_message n s b u i t br).1] := by
  induction pre with
  | nil => simp [notify_message, shown]
  | cons e es ih =>
    cases e with
    | display m => simp [shown] at hpre
    | read f => simp only [shown, List.cons_append] at hpre ⊢; exact ih hpre
    | debug f => simp only [shown, List.cons_append] at hpre ⊢; exact ih hpre
    | warning f => simp only [shown, List.cons_append] at hpre ⊢; exact ih hpre

/-- On a change that is reported exactly one notification is shown: the updated handle. -/
theorem shown_changed_differs (env : Env) (config : Config) (context : Context)
    (file : GFile) (r mx : ℤ) (hr : read_int env file = .ok r)
    (hm : read_int env context.max_brightness = .ok mx) (hne : context.backlight ≠ r) :
    shown (backlight_callback env config context file .CHANGED).2 =
      [(notify_message context.notification (some "Backlight") none
            NotifyUrgency.LOW (some (notify_icon (toGint (nearest_5 env.conv_ub r mx))))
            config.timeout (toGint (nearest_5 env.conv_ub r mx))).1] := by
  rw [callback_changed_differs env config context file r mx hr hm hne]
  exact shown_notify_message _ _ _ _ _ _ _ _ (by simp [shown])

theorem example_read_actual (actual max : ℤ) :
    read_int (example_env actual max) example_file = .ok actual := by
  simp [read_int, example_env, example_file]

theorem example_read_max (actual max stored : ℤ) :
    read_int (example_env actual max) (example_context stored).max_brightness = .ok max := by
  simp [read_int, example_env, example_context, context_init, SYS_CLASS_PATH]

/-! ## Scenario C: two readings with one bucket -/

theorem rne_tie_even (k : ℤ) (hk : k % 2 = 0) : rne ((k : ℚ) - 1 / 2) = k := by
  have hfl : ⌊(k : ℚ) - 1 / 2⌋ = k - 1 := by
    rw [Int.floor_eq_iff]; push_cast; constructor <;> linarith
  unfold rne
  rw [hfl]
  push_cast
  rw [if_neg (by linarith), if_neg (by linarith), if_neg (by omega)]
  ring

theorem f32_52_div_100 : f32 ((52 : ℚ) / 100) = 8724152 / 16777216 := by
  have h := fround_eval 24 (x := (52 : ℚ) / 100) (by norm_num) (-1) 8724152
    (by norm_num) (by norm_num) (by norm_num) (by norm_num)
  unfold f32
  rw [h]
  norm_num

theorem f32_perc_52_100 : f32 ((8724152 : ℚ) / 16777216 * 100) = 52 := by
  have hx : (0 : ℚ) < (8724152 : ℚ) / 16777216 * 100 := by norm_num
  have he : Int.log 2 ((8724152 : ℚ) / 16777216 * 100) = 5 := by
    have a := le_log_of_zpow_le hx (k := 5) (by norm_num)
    have b := log_lt_of_lt_zpow hx (k := 6) (by norm_num)
    omega
  unfold f32
  rw [fround_of_pos 24 hx, he]
  have hz : (8724152 : ℚ) / 16777216 * 100 / 2 ^ ((5 : ℤ) - (((24 : ℕ) : ℤ) - 1))
      = ((13631488 : ℤ) : ℚ) - 1 / 2 := by norm_num
  rw [hz, rne_tie_even 13631488 (by norm_num)]
  norm_num

theorem nearest_5_52_100 (ub : ℤ) : nearest_5 ub 52 100 = 50 := by
  obtain ⟨-, -, -, h⟩ := nearest_5_of_nonneg ub 52 100 (by norm_num) (by norm_num) (by norm_num)
  have h52 : f32 ((52 : ℤ) : ℚ) = ((52 : ℤ) : ℚ) := f32_intCast 52 (by norm_num)
  have h100 : f32 ((100 : ℤ) : ℚ) = ((100 : ℤ) : ℚ) := f32_intCast 100 (by norm_num)
  rw [h52, h100] at h
  push_cast at h
  rw [f32_52_div_100, f32_perc_52_100] at h
  rw [h]
  have : ⌊(52 : ℚ) / 5 + 1 / 2⌋ = 10 := by
    rw [Int.floor_eq_iff]; constructor <;> norm_num
  rw [this]
  norm_num

theorem nearest_5_50_100 (ub : ℤ) : nearest_5 ub 50 100 = 50 := by
  obtain ⟨-, -, -, h⟩ := nearest_5_of_nonneg ub 50 100 (by norm_num) (by norm_num) (by norm_num)
  have h50 : f32 ((50 : ℤ) : ℚ) = ((50 : ℤ) : ℚ) := f32_intCast 50 (by norm_num)
  have h100 : f32 ((100 : ℤ) : ℚ) = ((100 : ℤ) : ℚ) := f32_intCast 100 (by norm_num)
  rw [h50, h100] at h
  push_cast at h
  have hhalf : f32 ((50 : ℚ) / 100) = 1 / 2 := by
    have e : (50 : ℚ) / 100 = ((1 : ℤ) : ℚ) * 2 ^ (-1 : ℤ) := by norm_num
    have := fround_eq_self 24 (x := ((1 : ℤ) : ℚ) * 2 ^ (-1 : ℤ)) ⟨1, -1, by norm_num, rfl⟩
    unfold f32
    rw [e, this]
    norm_num
  have h50' : f32 ((1 : ℚ) / 2 * 100) = 50 := by
    have e : (1 : ℚ) / 2 * 100 = ((50 : ℤ) : ℚ) := by norm_num
    rw [e, f32_intCast 50 (by norm_num)]
    norm_num
  rw [hhalf, h50'] at h
  rw [h]
  have : ⌊(50 : ℚ) / 5 + 1 / 2⌋ = 10 := by
    rw [Int.floor_eq_iff]; constructor <;> norm_num
  rw [this]
  norm_num

/-! ## Change detection, icon tiers and the bounds of the range -/

/-- C1: on a change event whose two reads succeed with raw value `r` (and some
maximum), a notification is shown if and only if `r` differs from the stored raw
value; the comparison is on raw values. When one is shown the stored value
becomes `r`; when `r` equals the stored value nothing is shown and it stays. -/
theorem C1_notify_iff_raw_differs (env : Env) (config : Config) (context : Context)
    (file : GFile) (r mx : ℤ) (hr : read_int env file = .ok r)
    (hm : read_int env context.max_brightness = .ok mx) :
    (shown (backlight_callback env config context file .CHANGED).2 ≠ [] ↔
        r ≠ context.backlight) ∧
    (r ≠ context.backlight →
        (shown (backlight_callback env config context file .CHANGED).2).length = 1 ∧
        (backlight_callback env config context file .CHANGED).1.backlight = r) ∧
    (r = context.backlight →
        shown (backlight_callback env config context file .CHANGED).2 = [] ∧
        (backlight_callback env config context file .CHANGED).1.backlight
          = context.backlight) := by
  by_cases h : context.backlight = r
  · rw [callback_changed_same env config context file r hr h]
    simp [shown, h]
  · have hs := shown_changed_differs env config context file r mx hr hm h
    have hc := callback_changed_differs env config context file r mx hr hm h
    have h' : r ≠ context.backlight := fun e => h e.symm
    refine ⟨?_, ?_, ?_⟩
    · rw [hs]; simp [h']
    · intro _
      rw [hs, hc]
      simp
    · intro e; exact absurd e h'

/-- C1, scenario C: stored 50, reading 52 of 100. Both readings have the bucket 50,
yet a notification is shown and the stored value becomes 52. -/
theorem C1_notify_iff_raw_differs_witness :
    read_int (example_env 52 100) example_file = .ok 52 ∧
    read_int (example_env 52 100) (example_context 50).max_brightness = .ok 100 ∧
    nearest_5 (example_env 52 100).conv_ub 52 100 = nearest_5 (example_env 52 100).conv_ub 50 100 ∧
    (shown (backlight_callback (example_env 52 100) config_default (example_context 50)
        example_file .CHANGED).2).length = 1 ∧
    (backlight_callback (example_env 52 100) config_default (example_context 50)
        example_file .CHANGED).1.backlight = 52 :=
  ⟨example_read_actual 52 100, example_read_max 52 100 50,
    by rw [nearest_5_52_100, nearest_5_50_100],
    (C1_notify_iff_raw_differs (example_env 52 100) config_default (example_context 50)
      example_file 52 100 (example_read_actual 52 100) (example_read_max 52 100 50)).2.1
      (by simp [example_context])⟩

/-- C3: `notify_icon` returns the high icon for a bucket of at least 66, the medium
icon from 33 up to 65 and the low icon below 33; so 65 is medium, 66 high, 32 low
and 33 medium. -/
theorem C3_notify_icon_tiers (bucket : ℤ) :
    (66 ≤ bucket → notify_icon bucket = "notification-display-brightness-high") ∧
    (33 ≤ bucket → bucket < 66 → notify_icon bucket = "notification-display-brightness-medium") ∧
    (bucket < 33 → notify_icon bucket = "notification-display-brightness-low") ∧
    notify_icon 65 = "notification-display-brightness-medium" ∧
    notify_icon 66 = "notification-display-brightness-high" ∧
    notify_icon 32 = "notification-display-brightness-low" ∧
    notify_icon 33 = "notification-display-brightness-medium" := by
  refine ⟨?_, ?_, ?_, ?_, ?_, ?_, ?_⟩
  · intro h; unfold notify_icon; rw [if_pos h]
  · intro h1 h2; unfold notify_icon; rw [if_neg (by omega), if_pos h1]
  · intro h; unfold notify_icon; rw [if_neg (by omega), if_neg (by omega)]
  · decide
  · decide
  · decide
  · decide

/-- C3 at the buckets 100, 50 and 0. -/
theorem C3_notify_icon_tiers_witness :
    notify_icon 100 = "notification-display-brightness-high" ∧
    notify_icon 50 = "notification-display-brightness-medium" ∧
    notify_icon 0 = "notification-display-brightness-low" :=
  ⟨(C3_notify_icon_tiers 100).1 (by decide),
    (C3_notify_icon_tiers 50).2.1 (by decide) (by decide),
    (C3_notify_icon_tiers 0).2.2.1 (by decide)⟩

/-- C4: when the read of the actual brightness fails, or the read of the maximum
fails after a raw value that differs from the stored one, no notification is shown
and the context, the stored raw value included, is unchanged. -/
theorem C4_failed_read_keeps_state (env : Env) (config : Config) (context : Context)
    (file : GFile)
    (h : (∃ e, read_int env file = .error e) ∨
      (∃ r e, read_int env file = .ok r ∧ r ≠ context.backlight ∧
        read_int env context.max_brightness = .error e)) :
    shown (backlight_callback env config context file .CHANGED).2 = [] ∧
    (backlight_callback env config context file .CHANGED).1 = context ∧
    (backlight_callback env config context file .CHANGED).1.backlight = context.backlight := by
  rcases h with ⟨e, he⟩ | ⟨r, e, hr, hne, hm⟩
  · unfold backlight_callback
    simp only [he]
    simp [shown]
  · unfold backlight_callback
    simp only [hr, hm]
    rw [if_pos (fun e => hne e.symm)]
    simp [shown]

/-- C4 on the device `acpi_video0`: an unreadable `actual_brightness`, and a reading
of 52 against the stored 50 with an unreadable `max_brightness`. -/
theorem C4_failed_read_keeps_state_witness :
    (shown (backlight_callback example_env_unreadable config_default (example_context 50)
        example_file .CHANGED).2 = [] ∧
      (backlight_callback example_env_unreadable config_default (example_context 50)
        example_file .CHANGED).1 = example_context 50 ∧
      (backlight_callback example_env_unreadable config_default (example_context 50)
        example_file .CHANGED).1.backlight = (example_context 50).backlight) ∧
    (shown (backlight_callback (example_env_no_max 52) config_default (example_context 50)
        example_file .CHANGED).2 = [] ∧
      (backlight_callback (example_env_no_max 52) config_default (example_context 50)
        example_file .CHANGED).1 = example_context 50 ∧
      (backlight_callback (example_env_no_max 52) config_default (example_context 50)
        example_file .CHANGED).1.backlight = (example_context 50).backlight) :=
  ⟨C4_failed_read_keeps_state example_env_unreadable config_default (example_context 50)
      example_file (Or.inl ⟨"Input/output error", rfl⟩),
    C4_failed_read_keeps_state (example_env_no_max 52) config_default (example_context 50)
      example_file (Or.inr ⟨52, "No such file or directory",
        by simp [read_int, example_env_no_max, example_file],
        by simp [example_context],
        by simp [read_int, example_env_no_max, example_context, context_init,
          SYS_CLASS_PATH]⟩)⟩

/-- C8: an event of any type other than `CHANGED` causes no read, shows no
notification, has no other effect and leaves the whole context unchanged. -/
theorem C8_other_events_ignored (env : Env) (config : Config) (context : Context)
    (file : GFile) (evtype : GFileMonitorEvent) (h : evtype ≠ .CHANGED) :
    reads (backlight_callback env config context file evtype).2 = [] ∧
    shown (backlight_callback env config context file evtype).2 = [] ∧
    (backlight_callback env config context file evtype).2 = [] ∧
    (backlight_callback env config context file evtype).1 = context := by
  cases evtype <;> first | exact absurd rfl h | simp [backlight_callback, reads, shown]

/-- C8 for a deletion of the watched file while a changed reading is available. -/
theorem C8_other_events_ignored_witness :
    GFileMonitorEvent.DELETED ≠ GFileMonitorEvent.CHANGED ∧
    reads (backlight_callback (example_env 52 100) config_default (example_context 50)
      example_file .DELETED).2 = [] ∧
    shown (backlight_callback (example_env 52 100) config_default (example_context 50)
      example_file .DELETED).2 = [] ∧
    (backlight_callback (example_env 52 100) config_default (example_context 50)
      example_file .DELETED).2 = [] ∧
    (backlight_callback (example_env 52 100) config_default (example_context 50)
      example_file .DELETED).1 = example_context 50 :=
  ⟨by decide, C8_other_events_ignored (example_env 52 100) config_default (example_context 50)
    example_file .DELETED (by decide)⟩

/-- C10: `context_init` stores the sentinel -1, so the first change event with
successful reads shows a notification exactly when the reading is not -1; a real
reading of -1 is not told apart from "unset" and shows nothing. -/
theorem C10_initial_sentinel (backlight : String) (env : Env) (config : Config)
    (file : GFile) (r mx : ℤ) (hr : read_int env file = .ok r)
    (hm : read_int env (context_init backlight).max_brightness = .ok mx) :
    (context_init backlight).backlight = -1 ∧
    (r ≠ -1 →
      (shown (backlight_callback env config (context_init backlight) file .CHANGED).2).length
        = 1) ∧
    (r = -1 →
      shown (backlight_callback env config (context_init backlight) file .CHANGED).2 = []) := by
  refine ⟨rfl, ?_, ?_⟩
  · intro h
    have hne : (context_init backlight).backlight ≠ r := fun e => h (by rw [← e]; rfl)
    rw [shown_changed_differs env config (context_init backlight) file r mx hr hm hne]
    simp
  · intro h
    have heq : (context_init backlight).backlight = r := by rw [h]; rfl
    rw [callback_changed_same env config (context_init backlight) file r hr heq]
    simp [shown]

/-- C10 on the device `acpi_video0`: a first reading of 50 is shown, a first reading
of -1 is not. -/
theorem C10_initial_sentinel_witness :
    (shown (backlight_callback (example_env 50 100) config_default
      (context_init "acpi_video0") example_file .CHANGED).2).length = 1 ∧
    shown (backlight_callback (example_env (-1) 100) config_default
      (context_init "acpi_video0") example_file .CHANGED).2 = [] :=
  ⟨(C10_initial_sentinel "acpi_video0" (example_env 50 100) config_default example_file
      50 100 (example_read_actual 50 100) (example_read_max 50 100 (-1))).2.1 (by decide),
    (C10_initial_sentinel "acpi_video0" (example_env (-1) 100) config_default example_file
      (-1) 100 (example_read_actual (-1) 100) (example_read_max (-1) 100 (-1))).2.2 rfl⟩

/-- C7: for every positive maximum, a reading equal to the maximum has bucket 100
and the high icon, and a reading of 0 has bucket 0 and the low icon. -/
theorem C7_bucket_at_bounds (ub max : ℤ) (hmax : 0 < max) :
    nearest_5 ub max max = 100 ∧
    notify_icon (toGint (nearest_5 ub max max)) = "notification-display-brightness-high" ∧
    nearest_5 ub 0 max = 0 ∧
    notify_icon (toGint (nearest_5 ub 0 max)) = "notification-display-brightness-low" := by
  have h100 : nearest_5 ub max max = 100 := by
    obtain ⟨-, -, -, h⟩ := nearest_5_of_nonneg ub max max hmax.le hmax (by linarith)
    have hp := percentage_self max hmax
    rw [percentage_of_pos max max hmax] at hp
    rw [h, Option.some.inj hp]
    have : ⌊(100 : ℚ) / 5 + 1 / 2⌋ = 20 := by
      rw [Int.floor_eq_iff]; constructor <;> norm_num
    rw [this]
    norm_num
  have h0 : nearest_5 ub 0 max = 0 := by
    obtain ⟨-, -, -, h⟩ := nearest_5_of_nonneg ub 0 max le_rfl hmax (by linarith)
    have hp := percentage_zero max hmax
    rw [percentage_of_pos 0 max hmax] at hp
    rw [h, Option.some.inj hp]
    have : ⌊(0 : ℚ) / 5 + 1 / 2⌋ = 0 := by
      rw [Int.floor_eq_iff]; constructor <;> norm_num
    rw [this]
    norm_num
  rw [h100, h0]
  exact ⟨rfl, by decide, rfl, by decide⟩

/-- C7 for the maximum 937. -/
theorem C7_bucket_at_bounds_witness :
    (0 : ℤ) < 937 ∧
    nearest_5 0 937 937 = 100 ∧
    notify_icon (toGint (nearest_5 0 937 937)) = "notification-display-brightness-high" ∧
    nearest_5 0 0 937 = 0 ∧
    notify_icon (toGint (nearest_5 0 0 937)) = "notification-display-brightness-low" :=
  ⟨by decide, C7_bucket_at_bounds 0 937 (by decide)⟩

/-! ## Buckets of readings in range -/

/-- For `0 ≤ raw ≤ 10^7 * max` the bucket is non-negative and fits a `gint`. -/
theorem nearest_5_fits (ub raw max : ℤ) (hraw : 0 ≤ raw) (hmax : 0 < max)
    (hr : raw ≤ 10000000 * max) :
    0 ≤ nearest_5 ub raw max ∧ nearest_5 ub raw max < 2147483648 := by
  obtain ⟨hv0, -, -, h⟩ := nearest_5_of_nonneg ub raw max hraw hmax (by linarith)
  have hrq : (0 : ℚ) ≤ raw := by exact_mod_cast hraw
  have hmq : (0 : ℚ) < max := by exact_mod_cast hmax
  have herr := perc_error raw max hraw hmax
  set v := f32 (f32 (f32 (raw : ℚ) / f32 (max : ℚ)) * 100) with hv
  have hp : 100 * (raw : ℚ) / max ≤ 1000000000 := by
    rw [div_le_iff₀ hmq]
    have : (raw : ℚ) ≤ 10000000 * max := by exact_mod_cast hr
    linarith
  have hvle : v ≤ 1000000500 := by
    have := (abs_le.mp herr).2
    have h2 : 100 * (raw : ℚ) / max / 2 ^ 21 ≤ 1000000000 / 2 ^ 21 :=
      div_le_div_of_nonneg_right hp (by norm_num)
    norm_num at h2 ⊢
    linarith
  have hn0 : 0 ≤ ⌊v / 5 + 1 / 2⌋ := Int.floor_nonneg.mpr (by positivity)
  have hfl : (⌊v / 5 + 1 / 2⌋ : ℚ) ≤ v / 5 + 1 / 2 := Int.floor_le _
  have hlt : ((⌊v / 5 + 1 / 2⌋ * 5 : ℤ) : ℚ) < ((2147483648 : ℤ) : ℚ) := by
    push_cast; linarith
  rw [h]
  exact ⟨by omega, by exact_mod_cast hlt⟩

/-- C5 (amended): on every event that shows a notification the "value" hint is the
bucket as passed in a `gint` when that is non-negative and is cleared when it is
negative; for every reading with `0 ≤ raw ≤ 10^7 * max` and `max > 0` the hint is
present and equals the bucket. -/
theorem C5_value_hint (env : Env) (config : Config) (context : Context)
    (file : GFile) (r mx : ℤ) (hr : read_int env file = .ok r)
    (hm : read_int env context.max_brightness = .ok mx) (hne : r ≠ context.backlight) :
    (shown (backlight_callback env config context file .CHANGED).2).map
        NotifyNotification.hint_value =
      [if 0 ≤ toGint (nearest_5 env.conv_ub r mx)
        then some (toGint (nearest_5 env.conv_ub r mx)) else none] ∧
    (0 ≤ r → 0 < mx → r ≤ 10000000 * mx →
      (shown (backlight_callback env config context file .CHANGED).2).map
        NotifyNotification.hint_value = [some (nearest_5 env.conv_ub r mx)]) := by
  have hs := shown_changed_differs env config context file r mx hr hm (fun e => hne e.symm)
  have h1 : (shown (backlight_callback env config context file .CHANGED).2).map
        NotifyNotification.hint_value =
      [if 0 ≤ toGint (nearest_5 env.conv_ub r mx)
        then some (toGint (nearest_5 env.conv_ub r mx)) else none] := by
    rw [hs]
    unfold notify_message
    by_cases hb : 0 ≤ toGint (nearest_5 env.conv_ub r mx)
    · simp [hb]
    · simp [hb]
  refine ⟨h1, ?_⟩
  intro h0 hmx hrange
  obtain ⟨a, b⟩ := nearest_5_fits env.conv_ub r mx h0 hmx hrange
  rw [h1, toGint_of_range _ (by linarith) b, if_pos a]

/-- C5 for the reading 52 of 100 against the stored 50: the hint is 50. -/
theorem C5_value_hint_witness :
    read_int (example_env 52 100) example_file = .ok 52 ∧
    read_int (example_env 52 100) (example_context 50).max_brightness = .ok 100 ∧
    (52 : ℤ) ≠ (example_context 50).backlight ∧
    (shown (backlight_callback (example_env 52 100) config_default (example_context 50)
      example_file .CHANGED).2).map NotifyNotification.hint_value
      = [some (nearest_5 (example_env 52 100).conv_ub 52 100)] :=
  ⟨example_read_actual 52 100, example_read_max 52 100 50, by simp [example_context],
    (C5_value_hint (example_env 52 100) config_default (example_context 50) example_file
      52 100 (example_read_actual 52 100) (example_read_max 52 100 50)
      (by simp [example_context])).2 (by decide) (by decide) (by decide)⟩

/-- C5 as stated fails: the reading -10 of 100 against the stored 50 shows a
notification whose "value" hint is cleared, the bucket being -5. -/
theorem C5_hint_cleared_counterexample :
    nearest_5 (example_env (-10) 100).conv_ub (-10) 100 = -5 ∧
    (shown (backlight_callback (example_env (-10) 100) config_default (example_context 50)
      example_file .CHANGED).2).map NotifyNotification.hint_value = [none] := by
  refine ⟨nearest_5_neg10_100 _, ?_⟩
  rw [shown_changed_differs (example_env (-10) 100) config_default (example_context 50)
    example_file (-10) 100 (example_read_actual (-10) 100) (example_read_max (-10) 100 50)
    (by simp [example_context])]
  rw [nearest_5_neg10_100]
  simp [notify_message, toGint, wrapSigned]

/-! ## The timeout -/

/-- The timeout shown is the configured one. -/
theorem shown_timeout (env : Env) (config : Config) (context : Context)
    (file : GFile) (r mx : ℤ) (hr : read_int env file = .ok r)
    (hm : read_int env context.max_brightness = .ok mx) (hne : context.backlight ≠ r) :
    (shown (backlight_callback env config context file .CHANGED).2).map
      NotifyNotification.timeout = [config.timeout] := by
  rw [shown_changed_differs env config context file r mx hr hm hne]
  unfold notify_message
  by_cases hb : 0 ≤ toGint (nearest_5 env.conv_ub r mx)
  · simp [hb]
  · simp [hb]

/-- Where the product fits a `gint`, `options_init` multiplies a positive timeout
by 1000 and leaves any other timeout as it is. -/
theorem options_init_timeout (config : Config) (hb : config.backlight ≠ none)
    (hhi : config.timeout ≤ 2147483) :
    options_init (.ok config) =
      some { config with
        timeout := if 0 < config.timeout then config.timeout * 1000 else config.timeout } := by
  unfold options_init
  simp only [hb, if_false]
  by_cases h : 0 < config.timeout
  · rw [if_pos h, if_pos h, toGint_of_range _ (by linarith) (by linarith)]
  · rw [if_neg h, if_neg h]

/-- C6 fails at `--timeout 2147484`: `options_init` accepts it, the 32-bit product
wraps, and the timeout that reaches the notification is -2147483296 instead of
2147484000. -/
theorem C6_timeout_overflow :
    options_init (.ok { debug := false, timeout := 2147484, backlight := some "acpi_video0" })
      = some { debug := false, timeout := -2147483296, backlight := some "acpi_video0" } ∧
    (shown (backlight_callback (example_env 52 100)
      { debug := false, timeout := -2147483296, backlight := some "acpi_video0" }
      (example_context 50) example_file .CHANGED).2).map NotifyNotification.timeout
      = [-2147483296] ∧
    (-2147483296 : ℤ) ≠ 2147484 * 1000 := by
  refine ⟨by decide, ?_, by decide⟩
  exact shown_timeout (example_env 52 100) _ (example_context 50) example_file 52 100
    (example_read_actual 52 100) (example_read_max 52 100 50) (by simp [example_context])

/-! ## A large reading -/

theorem f32_large_quotient :
    f32 ((801765 : ℚ) / 1886506) = 14260633 / 33554432 := by
  have h := fround_eval 24 (x := (801765 : ℚ) / 1886506) (by norm_num) (-2) 14260633
    (by norm_num) (by norm_num) (by norm_num) (by norm_num)
  unfold f32
  rw [h]
  norm_num

theorem f32_large_perc : f32 ((14260633 : ℚ) / 33554432 * 100) = 85 / 2 := by
  have h := fround_eval 24 (x := (14260633 : ℚ) / 33554432 * 100) (by norm_num) 5 11141120
    (by norm_num) (by norm_num) (by norm_num) (by norm_num)
  unfold f32
  rw [h]
  norm_num

/-- Beyond `raw ≤ 100000` the bucket need not be a nearest multiple of 5 of the
exact percentage: for 801765 of 1886506 (42.49999...%) the computed percentage is
42.5 and the bucket is 45. -/
theorem nearest_5_large_reading (ub : ℤ) :
    nearest_5 ub 801765 1886506 = 45 ∧
    ¬ (2 * |nearest_5 ub 801765 1886506 * 1886506 - 100 * 801765| ≤ 5 * 1886506) := by
  have h45 : nearest_5 ub 801765 1886506 = 45 := by
    obtain ⟨-, -, -, h⟩ := nearest_5_of_nonneg ub 801765 1886506 (by norm_num) (by norm_num)
      (by norm_num)
    have ha : f32 ((801765 : ℤ) : ℚ) = ((801765 : ℤ) : ℚ) := f32_intCast 801765 (by norm_num)
    have hb : f32 ((1886506 : ℤ) : ℚ) = ((1886506 : ℤ) : ℚ) :=
      f32_intCast 1886506 (by norm_num)
    rw [ha, hb] at h
    push_cast at h
    rw [f32_large_quotient, f32_large_perc] at h
    rw [h]
    have : ⌊(85 : ℚ) / 2 / 5 + 1 / 2⌋ = 9 := by
      rw [Int.floor_eq_iff]; constructor <;> norm_num
    rw [this]
    norm_num
  rw [h45]
  exact ⟨rfl, by norm_num⟩

/-! ## The bucket and the exact percentage -/

/-- For `0 ≤ raw ≤ 100000` the bucket is within 2.5 of the exact percentage. -/
theorem nearest_5_near_exact (ub raw max : ℤ) (hraw : 0 ≤ raw) (hsmall : raw ≤ 100000)
    (hmax : 0 < max) :
    2 * |nearest_5 ub raw max * max - 100 * raw| ≤ 5 * max := by
  obtain ⟨hv0, -, -, h⟩ := nearest_5_of_nonneg ub raw max hraw hmax (by nlinarith)
  have herr := perc_error_small raw max hraw (by norm_num; omega) hmax
  set v := f32 (f32 (f32 (raw : ℚ) / f32 (max : ℚ)) * 100) with hv
  set n := ⌊v / 5 + 1 / 2⌋ with hn
  have h1 : (n : ℚ) ≤ v / 5 + 1 / 2 := Int.floor_le _
  have h2 : v / 5 + 1 / 2 < (n : ℚ) + 1 := Int.lt_floor_add_one _
  have hrq : (0 : ℚ) ≤ raw := by exact_mod_cast hraw
  have hrs : (raw : ℚ) ≤ 100000 := by exact_mod_cast hsmall
  have hmq : (0 : ℚ) < max := by exact_mod_cast hmax
  -- the error bound, cleared of the division
  have hvm : v * max - 100 * raw = (v - 100 * (raw : ℚ) / max) * max := by
    field_simp
  have hem' : 100 * (raw : ℚ) / max / 2 ^ 22 * max = 100 * raw / 2 ^ 22 := by
    field_simp
    ring
  obtain ⟨e1, e2⟩ := abs_le.mp herr
  have g1 : v * max - 100 * raw ≤ 100 * raw / 2 ^ 22 := by
    rw [hvm, ← hem']
    exact mul_le_mul_of_nonneg_right e2 hmq.le
  have g2 : -(100 * raw / 2 ^ 22) ≤ v * max - 100 * raw := by
    rw [hvm, ← hem', ← neg_mul]
    exact mul_le_mul_of_nonneg_right e1 hmq.le
  have b1 : ((n : ℚ) * 5 - 5 / 2) * max ≤ v * max :=
    mul_le_mul_of_nonneg_right (by linarith) hmq.le
  have b2 : v * max ≤ ((n : ℚ) * 5 + 5 / 2) * max :=
    mul_le_mul_of_nonneg_right (by linarith) hmq.le
  rw [h]
  by_contra hcon
  push_neg at hcon
  rcases le_or_lt 0 (n * 5 * max - 100 * raw) with hs | hs
  · rw [abs_of_nonneg hs] at hcon
    have c1 : 40 * raw < (2 * n - 1) * max := by linarith
    have c2 : 40 * raw + 1 ≤ (2 * n - 1) * max := c1
    have c3 : ((40 * raw + 1 : ℤ) : ℚ) ≤ (((2 * n - 1) * max : ℤ) : ℚ) := by exact_mod_cast c2
    push_cast at c3
    norm_num at g1
    linarith
  · rw [abs_of_neg hs] at hcon
    have c1 : (2 * n + 1) * max < 40 * raw := by linarith
    have c2 : (2 * n + 1) * max + 1 ≤ 40 * raw := c1
    have c3 : (((2 * n + 1) * max + 1 : ℤ) : ℚ) ≤ ((40 * raw : ℤ) : ℚ) := by exact_mod_cast c2
    push_cast at c3
    norm_num at g2
    linarith

/-- The exact formula brackets `40 * raw` between two odd multiples of `max`. -/
theorem exact_bucket_bounds (raw max : ℤ) (hmax : 0 < max) :
    ∃ m : ℤ, exact_bucket raw max = m * 5 ∧
      (2 * m - 1) * max ≤ 40 * raw ∧ 40 * raw < (2 * m + 1) * max := by
  have hmq : (0 : ℚ) < max := by exact_mod_cast hmax
  have e : ((raw : ℚ) / max * 100 / 5 + 1 / 2) * (2 * max) = 40 * raw + max := by
    field_simp
    ring
  have h1 := Int.floor_le ((raw : ℚ) / max * 100 / 5 + 1 / 2)
  have h2 := Int.lt_floor_add_one ((raw : ℚ) / max * 100 / 5 + 1 / 2)
  refine ⟨⌊(raw : ℚ) / max * 100 / 5 + 1 / 2⌋, rfl, ?_, ?_⟩
  · have h3 : (⌊(raw : ℚ) / max * 100 / 5 + 1 / 2⌋ : ℚ) * (2 * max) ≤ 40 * raw + max := by
      rw [← e]
      exact mul_le_mul_of_nonneg_right h1 (by linarith)
    have h4 : (((2 * ⌊(raw : ℚ) / max * 100 / 5 + 1 / 2⌋ - 1) * max : ℤ) : ℚ)
        ≤ ((40 * raw : ℤ) : ℚ) := by
      push_cast; linarith
    exact_mod_cast h4
  · have h3 : 40 * raw + max
        < ((⌊(raw : ℚ) / max * 100 / 5 + 1 / 2⌋ : ℚ) + 1) * (2 * max) := by
      rw [← e]
      exact mul_lt_mul_of_pos_right h2 (by linarith)
    have h4 : ((40 * raw : ℤ) : ℚ)
        < (((2 * ⌊(raw : ℚ) / max * 100 / 5 + 1 / 2⌋ + 1) * max : ℤ) : ℚ) := by
      push_cast; linarith
    exact_mod_cast h4

/-- For `0 ≤ raw ≤ 100000` the bucket is the value of the exact formula, or the
multiple of 5 below it when the exact percentage is halfway between the two. -/
theorem nearest_5_vs_exact (ub raw max : ℤ) (hraw : 0 ≤ raw) (hsmall : raw ≤ 100000)
    (hmax : 0 < max) :
    nearest_5 ub raw max = exact_bucket raw max ∨
      (nearest_5 ub raw max = exact_bucket raw max - 5 ∧
        ∃ k : ℤ, nearest_5 ub raw max = k * 5 ∧ 40 * raw = (2 * k + 1) * max) := by
  have hn : nearest_5 ub raw max = floatToSigned 32 ub
      ((percentage raw max).map fun perc => f64 (f64 (perc / 5) + 1 / 2)) * 5 :=
    nearest_5_eq ub raw max
  obtain ⟨m, hm, hlo, hhi⟩ := exact_bucket_bounds raw max hmax
  have hnear := nearest_5_near_exact ub raw max hraw hsmall hmax
  set n := floatToSigned 32 ub
      ((percentage raw max).map fun perc => f64 (f64 (perc / 5) + 1 / 2)) with hndef
  rw [hn] at hnear ⊢
  rw [hm]
  have a1 := le_abs_self (n * 5 * max - 100 * raw)
  have a2 := neg_abs_le (n * 5 * max - 100 * raw)
  have c1 : (2 * n - 1) * max ≤ 40 * raw := by linarith
  have c2 : 40 * raw ≤ (2 * n + 1) * max := by linarith
  have d1 : 2 * n - 1 < 2 * m + 1 :=
    lt_of_mul_lt_mul_right (lt_of_le_of_lt c1 hhi) hmax.le
  have d2 : 2 * m - 1 ≤ 2 * n + 1 :=
    le_of_mul_le_mul_right (le_trans hlo c2) hmax
  rcases (by omega : m = n ∨ m = n + 1) with hmn | hmn
  · left; rw [hmn]
  · right
    rw [hmn] at hlo
    refine ⟨by rw [hmn]; ring, n, rfl, ?_⟩
    have : (2 * (n + 1) - 1) * max = (2 * n + 1) * max := by ring
    rw [this] at hlo
    exact le_antisymm c2 hlo

/-! ## The bucket formula -/

/-- C2 (amended): the bucket is a multiple of 5 for all readings; for
`0 ≤ raw ≤ 100000` and `max > 0` it equals the exact `floor(raw/max*100/5 + 0.5) * 5`
whenever `100 * raw / max` is not exactly halfway between two multiples of 5, and at
such a halfway point it is that value or the multiple of 5 below it. -/
theorem C2_bucket_formula (ub raw max : ℤ) :
    5 ∣ nearest_5 ub raw max ∧
    (0 ≤ raw → raw ≤ 100000 → 0 < max →
      (nearest_5 ub raw max = exact_bucket raw max ∨
        (nearest_5 ub raw max = exact_bucket raw max - 5 ∧
          200 * raw = (2 * nearest_5 ub raw max + 5) * max)) ∧
      ((¬ ∃ k : ℤ, 40 * raw = (2 * k + 1) * max) →
        nearest_5 ub raw max = exact_bucket raw max)) := by
  constructor
  · rw [nearest_5_eq]
    exact Dvd.intro_left _ rfl
  · intro hraw hsmall hmax
    rcases nearest_5_vs_exact ub raw max hraw hsmall hmax with h | ⟨h, k, hk, htie⟩
    · exact ⟨Or.inl h, fun _ => h⟩
    · refine ⟨Or.inr ⟨h, ?_⟩, fun hno => absurd ⟨k, htie⟩ hno⟩
      rw [hk]
      linear_combination 5 * htie

/-- C2 for the reading 52 of 100, which is not halfway between two multiples of 5. -/
theorem C2_bucket_formula_witness :
    (0 : ℤ) ≤ 52 ∧ (52 : ℤ) ≤ 100000 ∧ (0 : ℤ) < 100 ∧
    (¬ ∃ k : ℤ, 40 * 52 = (2 * k + 1) * 100) ∧
    nearest_5 0 52 100 = exact_bucket 52 100 :=
  ⟨by decide, by decide, by decide, by rintro ⟨k, hk⟩; omega,
    ((C2_bucket_formula 0 52 100).2 (by decide) (by decide) (by decide)).2
      (by rintro ⟨k, hk⟩; omega)⟩

/-- C2 as stated fails in three ways. For -10 of 100 the cast truncates -1.5 toward
zero and the bucket is -5, the formula gives -10. For 21 of 40 the exact percentage
52.5 is halfway, the single-precision percentage lies below it and the bucket is 50,
the formula gives 55. For 801765 of 1886506 the single-precision percentage is 42.5
and the bucket is 45, the formula gives 40. -/
theorem C2_formula_counterexample :
    (nearest_5 0 (-10) 100 = -5 ∧ exact_bucket (-10) 100 = -10) ∧
    (nearest_5 0 21 40 = 50 ∧ exact_bucket 21 40 = 55) ∧
    (nearest_5 0 801765 1886506 = 45 ∧ exact_bucket 801765 1886506 = 40) := by
  refine ⟨⟨nearest_5_neg10_100 0, ?_⟩, ⟨nearest_5_21_40 0, ?_⟩,
    ⟨(nearest_5_large_reading 0).1, ?_⟩⟩
  · unfold exact_bucket
    have : ⌊((-10 : ℤ) : ℚ) / ((100 : ℤ) : ℚ) * 100 / 5 + 1 / 2⌋ = -2 := by
      rw [Int.floor_eq_iff]; constructor <;> norm_num
    rw [this]
    norm_num
  · unfold exact_bucket
    have : ⌊((21 : ℤ) : ℚ) / ((40 : ℤ) : ℚ) * 100 / 5 + 1 / 2⌋ = 11 := by
      rw [Int.floor_eq_iff]; constructor <;> norm_num
    rw [this]
    norm_num
  · unfold exact_bucket
    have : ⌊((801765 : ℤ) : ℚ) / ((1886506 : ℤ) : ℚ) * 100 / 5 + 1 / 2⌋ = 8 := by
      rw [Int.floor_eq_iff]; constructor <;> norm_num
    rw [this]
    norm_num

end BacklightNotify
